import Mathlib

/-!
# Verification of the power-management core (kernel/pm.c and arch/i386/kernel/apm.c)

A shallow embedding of the generic power-management dispatcher (pm.c: device
registry, pm_send, pm_undo_all, pm_send_all) and of the APM front end
(apm.c: per-client event queues, pending counters, queue_event, do_ioctl,
do_release, do_open, suspend, standby, check_events), together with theorems
about the broadcast/rollback protocol, counter conservation, queue overflow,
registration order, acknowledge arbitration, critical-suspend semantics,
debounce, and the resume fan-out.

Modelling conventions:
* C machine integers that hold counters or status codes become Lean Int;
  array indices become Nat with explicit mod arithmetic.
* A device callback is a pure function from request and data to a status,
  wrapped in Option (a NULL callback in C is none).
* Side effects that are out of the core scope (printk logging, time-of-day
  restoration, cli and sti, the wait queues) are dropped; every externally
  visible action (device callback invocations, BIOS power-state calls, and
  entry into the suspend and standby procedures) is recorded in a trace so
  that theorems can speak about what was invoked.
* The BIOS backend (apm_set_power_state) is a parameter bios mapping a
  requested state to its result code; the BIOS connection version is a
  parameter ver.
-/

namespace PmCore

/-- Power-management request codes (pm_request_t from linux/pm.h):
PM_SUSPEND and PM_RESUME are handled specially by pm_send; every other
request code is collected in the `other` constructor. -/
inductive PmRequest where
  | suspend
  | resume
  | other (code : Nat)
deriving DecidableEq

/-- Externally visible actions, recorded in traces. -/
inductive Act where
  /-- A device callback invocation: device type, device id, request,
  data argument, and the status the callback returned. -/
  | callback (ty devid : Nat) (rqst : PmRequest) (data status : Int)
  /-- A BIOS call apm_set_power_state(target) returning result. -/
  | setPower (target : Nat) (result : Int)
  /-- Entry into the suspend procedure (with its vetoable flag). -/
  | enterSuspend (vetoable : Bool)
  /-- Entry into the standby procedure. -/
  | enterStandby
deriving DecidableEq

/-- A registered device (struct pm_dev).  The `handle` field models the
node address returned by pm_register and used for identity by
pm_unregister; pm_register zeroes the record, so state and prev_state
start at 0. -/
structure PmDev where
  handle : Nat
  ty : Nat
  devid : Nat
  callback : Option (PmRequest → Int → Int)
  state : Int
  prev_state : Int

/-- Invoke the device callback if present (a NULL callback acts as an
always-successful callback as far as the status test in pm_send goes). -/
def invokeCb (dev : PmDev) (rqst : PmRequest) (data : Int) : Int × List Act :=
  match dev.callback with
  | some cb =>
      let s := cb rqst data
      (s, [Act.callback dev.ty dev.devid rqst data s])
  | none => (0, [])

/-- pm_send: issue a request to a single device.  PM_SUSPEND and PM_RESUME
are handled specially: the data field holds the intended next state and no
callback is made if the state already matches. -/
def pm_send (dev : PmDev) (rqst : PmRequest) (data : Int) :
    Int × PmDev × List Act :=
  match rqst with
  | PmRequest.suspend | PmRequest.resume =>
      let prev := dev.state
      let next := data
      if prev ≠ next then
        let r := invokeCb dev rqst data
        if r.1 = 0 then
          (0, { dev with state := next, prev_state := prev }, r.2)
        else
          (r.1, dev, r.2)
      else
        (0, { dev with prev_state := prev }, [])
  | PmRequest.other _ =>
      let r := invokeCb dev rqst data
      (r.1, dev, r.2)

/-- One step of pm_undo_all: if the device state differs from its previous
state, issue the inverse request (PM_SUSPEND if the previous state was
nonzero, PM_RESUME if it was zero) with the previous state as data; the
status of the compensating send is ignored. -/
def pm_undo_one (dev : PmDev) : PmDev × List Act :=
  if dev.state ≠ dev.prev_state then
    let undo := if dev.prev_state ≠ 0 then PmRequest.suspend else PmRequest.resume
    let r := pm_send dev undo dev.prev_state
    (r.2.1, r.2.2)
  else
    (dev, [])

/-- pm_undo_all: restore the devices that precede the failing device.  The
C code walks the linked list backward from the failing entry to the head;
each node is visited exactly once and the nodes are independent, so we
recurse over the prefix and emit the traces in backward order. -/
def pm_undo_all : List PmDev → List PmDev × List Act
  | [] => ([], [])
  | d :: ds =>
      let rTail := pm_undo_all ds
      let rHead := pm_undo_one d
      (rHead.1 :: rTail.1, rTail.2 ++ rHead.2)

/-- Worker for pm_send_all: `done` holds the already-visited devices in
reverse order (most recently visited first), mirroring the position of the
traversal in the linked list. -/
def pm_send_all_aux (rqst : PmRequest) (data : Int) :
    List PmDev → List PmDev → Int × List PmDev × List Act
  | done, [] => (0, done.reverse, [])
  | done, d :: ds =>
      if d.callback.isSome then
        let r := pm_send d rqst data
        if r.1 = 0 then
          let rr := pm_send_all_aux rqst data (r.2.1 :: done) ds
          (rr.1, rr.2.1, r.2.2 ++ rr.2.2)
        else if rqst = PmRequest.suspend then
          let u := pm_undo_all done.reverse
          (r.1, u.1 ++ r.2.1 :: ds, r.2.2 ++ u.2)
        else
          (r.1, done.reverse ++ r.2.1 :: ds, r.2.2)
      else
        pm_send_all_aux rqst data (d :: done) ds

/-- pm_send_all: issue a request to all registered devices in iteration
order.  On the first failing PM_SUSPEND, previously visited devices are
returned to their previous state via pm_undo_all and the failing status is
returned; devices with a NULL callback are skipped. -/
def pm_send_all (rqst : PmRequest) (data : Int) (devs : List PmDev) :
    Int × List PmDev × List Act :=
  pm_send_all_aux rqst data [] devs

/-- pm_register: allocate a zeroed device record and insert it with
list_add, which places the new entry directly after the list head, i.e.
at the FRONT of the iteration order. -/
def pm_register (handle ty devid : Nat) (cb : Option (PmRequest → Int → Int))
    (devs : List PmDev) : List PmDev :=
  { handle := handle, ty := ty, devid := devid, callback := cb,
    state := 0, prev_state := 0 } :: devs

/-- pm_unregister: unlink the node with the given identity (list_del on
the node passed by the caller). -/
def pm_unregister (handle : Nat) (devs : List PmDev) : List PmDev :=
  devs.eraseP (fun d => d.handle = handle)

/-! ## APM front end (arch/i386/kernel/apm.c)

Event codes follow the APM 1.2 specification; the values 1..12 match the
indexing of the apm_event_name table in the driver (event - 1 names the
event). -/

def APM_SYS_STANDBY : Nat := 1
def APM_SYS_SUSPEND : Nat := 2
def APM_NORMAL_RESUME : Nat := 3
def APM_CRITICAL_RESUME : Nat := 4
def APM_LOW_BATTERY : Nat := 5
def APM_POWER_STATUS_CHANGE : Nat := 6
def APM_UPDATE_TIME : Nat := 7
def APM_CRITICAL_SUSPEND : Nat := 8
def APM_USER_STANDBY : Nat := 9
def APM_USER_SUSPEND : Nat := 10
def APM_STANDBY_RESUME : Nat := 11
def APM_CAPABILITY_CHANGE : Nat := 12

/-- System power states passed to apm_set_power_state. -/
def APM_STATE_STANDBY : Nat := 1
def APM_STATE_SUSPEND : Nat := 2
def APM_STATE_BUSY : Nat := 4
def APM_STATE_REJECT : Nat := 5

/-- BIOS result codes used by the suspend routine. -/
def APM_SUCCESS : Int := 0
def APM_NO_ERROR : Int := 0x53

/-- Linux errno values used as negative return codes. -/
def EIO_errno : Int := 5
def EBUSY : Int := 16
def EPERM : Int := 1
def EINVAL : Int := 22

/-- ioctl command codes (APM_IOC_STANDBY and APM_IOC_SUSPEND); only their
identity matters here. -/
def APM_IOC_STANDBY : Nat := 1
def APM_IOC_SUSPEND : Nat := 2

/-- Maximum number of events stored per client queue (array size). -/
def APM_MAX_EVENTS : Nat := 20

/-- Ignore suspend events for this long after a resume (3 * HZ with
HZ = 100). -/
def bounce_interval : Nat := 300

/-- A connected client (struct apm_user).  The magic field, the
suspend_wait flag and suspend_result (used only to hand the result of a
deferred suspend back through the wait queue) are not modelled; `uid`
models the node address used for the sender comparison in queue_event.
The C code leaves the events array uninitialised; unread slots are never
exposed, and we start from zeroes. -/
structure ApmUser where
  uid : Nat
  suser : Bool
  writer : Bool
  reader : Bool
  suspends_pending : Int
  standbys_pending : Int
  suspends_read : Int
  standbys_read : Int
  event_head : Nat
  event_tail : Nat
  events : List Nat
deriving DecidableEq

/-- do_open: a fresh client record with an empty queue and zeroed
counters. -/
def mkUser (uid : Nat) (su wr rd : Bool) : ApmUser :=
  { uid := uid, suser := su, writer := wr, reader := rd,
    suspends_pending := 0, standbys_pending := 0,
    suspends_read := 0, standbys_read := 0,
    event_head := 0, event_tail := 0,
    events := List.replicate APM_MAX_EVENTS 0 }

/-- The queue-insertion step of queue_event for one client: advance the
head; if it collides with the tail, evict the oldest unread slot by
advancing the tail (the Bool reports that the overflow counter was
bumped); store the event at the new head. -/
def push_event (as : ApmUser) (event : Nat) : ApmUser × Bool :=
  let head := (as.event_head + 1) % APM_MAX_EVENTS
  if head = as.event_tail then
    ({ as with event_head := head,
               event_tail := (as.event_tail + 1) % APM_MAX_EVENTS,
               events := as.events.set head event }, true)
  else
    ({ as with event_head := head,
               events := as.events.set head event }, false)

/-- Push a sequence of events, counting how often the overflow counter
(the static `notified` in queue_event) is bumped. -/
def push_events (as : ApmUser) (evs : List Nat) : ApmUser × Nat :=
  evs.foldl
    (fun p e =>
      let r := push_event p.1 e
      (r.1, p.2 + (if r.2 then 1 else 0)))
    (as, 0)

/-- Number of unread events in the ring (distance from tail to head). -/
def queue_size (as : ApmUser) : Nat :=
  (as.event_head + APM_MAX_EVENTS - as.event_tail) % APM_MAX_EVENTS

/-- The unread events in the order get_queued_event would return them:
slot (tail + 1) first, slot head last. -/
def queue_contents (as : ApmUser) : List Nat :=
  (List.range (queue_size as)).map
    (fun i => as.events.getD ((as.event_tail + 1 + i) % APM_MAX_EVENTS) 0)

/-- get_queued_event: advance the tail and read the slot it lands on. -/
def get_queued_event (as : ApmUser) : ApmUser × Nat :=
  let tail := (as.event_tail + 1) % APM_MAX_EVENTS
  ({ as with event_tail := tail }, as.events.getD tail 0)

/-- The effect of queue_event on one client: skipped if it is the sender
or not a reader; otherwise the event is pushed and, for a privileged
writer, the matching local pending counter is bumped. -/
def deliver (event : Nat) (sender : Option Nat) (as : ApmUser) : ApmUser :=
  if sender = some as.uid ∨ as.reader = false then as
  else
    let as1 := (push_event as event).1
    if as.suser && as.writer then
      if event = APM_SYS_SUSPEND ∨ event = APM_USER_SUSPEND then
        { as1 with suspends_pending := as1.suspends_pending + 1 }
      else if event = APM_SYS_STANDBY ∨ event = APM_USER_STANDBY then
        { as1 with standbys_pending := as1.standbys_pending + 1 }
      else as1
    else as1

/-- The contribution of one client to the global suspends_pending bump
performed inside the queue_event loop. -/
def suspDelta (event : Nat) (sender : Option Nat) (as : ApmUser) : Int :=
  if sender = some as.uid ∨ as.reader = false then 0
  else if as.suser && as.writer then
    if event = APM_SYS_SUSPEND ∨ event = APM_USER_SUSPEND then 1 else 0
  else 0

/-- The contribution of one client to the global standbys_pending bump. -/
def standbyDelta (event : Nat) (sender : Option Nat) (as : ApmUser) : Int :=
  if sender = some as.uid ∨ as.reader = false then 0
  else if as.suser && as.writer then
    if event = APM_SYS_SUSPEND ∨ event = APM_USER_SUSPEND then 0
    else if event = APM_SYS_STANDBY ∨ event = APM_USER_STANDBY then 1
    else 0
  else 0

/-- The queue_event loop over user_list: returns the updated clients and
the total increments applied to the two global pending counters. -/
def queue_event_users (event : Nat) (sender : Option Nat) :
    List ApmUser → List ApmUser × Int × Int
  | [] => ([], 0, 0)
  | as :: rest =>
      let r := queue_event_users event sender rest
      (deliver event sender as :: r.1,
       suspDelta event sender as + r.2.1,
       standbyDelta event sender as + r.2.2)

/-- Global driver state: the client list (user_list, most recently opened
first), the global pending counters, the device registry of pm.c, and the
static flags of suspend and check_events.  nextId feeds fresh client and
the auxiliary jiffies value last_resume records the last resume time. -/
structure ApmState where
  users : List ApmUser
  suspends_pending : Int
  standbys_pending : Int
  devs : List PmDev
  waiting_for_resume : Bool
  ignore_normal_resume : Bool
  ignore_bounce : Bool
  last_resume : Nat
  nextId : Nat

/-- The driver state at module load: no clients, no devices, all counters
and flags zero. -/
def initState : ApmState :=
  { users := [], suspends_pending := 0, standbys_pending := 0, devs := [],
    waiting_for_resume := false, ignore_normal_resume := false,
    ignore_bounce := false, last_resume := 0, nextId := 0 }

/-- queue_event: bail out when user_list is empty, otherwise deliver the
event to every reader except the sender and add the accumulated local
increments to the global pending counters. -/
def queue_event (st : ApmState) (event : Nat) (sender : Option Nat) :
    ApmState :=
  if st.users.isEmpty then st
  else
    let r := queue_event_users event sender st.users
    { st with users := r.1,
              suspends_pending := st.suspends_pending + r.2.1,
              standbys_pending := st.standbys_pending + r.2.2 }

/-- standby: apply the standby state through the BIOS (failures are only
logged). -/
def standby (bios : Nat → Int) (st : ApmState) : ApmState × List Act :=
  let err := bios APM_STATE_STANDBY
  (st, [Act.enterStandby, Act.setPower APM_STATE_STANDBY err])

/-- suspend: broadcast PM_SUSPEND (data 3) to the devices; a veto aborts
a vetoable suspend (notifying the BIOS with APM_STATE_REJECT when the
connection version is above 0x100) with -EBUSY; otherwise the BIOS
suspend is applied, every device is sent PM_RESUME (data 0), a synthetic
normal-resume event is queued to every reader, and ignore_normal_resume
is set (the C code sets it on the vetoed path as well, at the out label). -/
def suspend (bios : Nat → Int) (ver : Nat) (vetoable : Bool)
    (st : ApmState) : Int × ApmState × List Act :=
  let r1 := pm_send_all PmRequest.suspend 3 st.devs
  if r1.1 ≠ 0 ∧ vetoable then
    let rejTr :=
      if ver > 0x100 then
        [Act.setPower APM_STATE_REJECT (bios APM_STATE_REJECT)]
      else []
    (-EBUSY,
     { st with devs := r1.2.1, waiting_for_resume := false,
               ignore_normal_resume := true },
     Act.enterSuspend vetoable :: r1.2.2 ++ rejTr)
  else
    let err0 := bios APM_STATE_SUSPEND
    let err1 := if err0 = APM_NO_ERROR then APM_SUCCESS else err0
    let err : Int := if err1 = APM_SUCCESS then 0 else -EIO_errno
    let r2 := pm_send_all PmRequest.resume 0 r1.2.1
    let st1 := queue_event { st with devs := r2.2.1 } APM_NORMAL_RESUME none
    (err,
     { st1 with ignore_normal_resume := true },
     Act.enterSuspend vetoable :: r1.2.2
       ++ [Act.setPower APM_STATE_SUSPEND err0] ++ r2.2.2)

/-- do_open: prepend a fresh client to user_list. -/
def do_open (st : ApmState) (su wr rd : Bool) : ApmState :=
  { st with users := mkUser st.nextId su wr rd :: st.users,
            nextId := st.nextId + 1 }

/-- do_ioctl: reject unknown clients and clients that are not privileged
writers; APM_IOC_STANDBY and APM_IOC_SUSPEND either consume one read
pending count (decrementing the local and global counters) or synthesize
a fresh user event through queue_event with the caller excluded, then
execute the transition when the global counter has dropped to zero or
below.  The deferred branch of APM_IOC_SUSPEND parks the caller on a wait
queue and later returns its suspend_result; synchronously it returns 0
here. -/
def do_ioctl (bios : Nat → Int) (ver : Nat) (st : ApmState)
    (uid : Nat) (cmd : Nat) : Int × ApmState × List Act :=
  match st.users.find? (fun u => u.uid = uid) with
  | none => (-EIO_errno, st, [])
  | some as =>
      if ¬(as.suser && as.writer) then (-EPERM, st, [])
      else if cmd = APM_IOC_STANDBY then
        let st1 :=
          if as.standbys_read > 0 then
            { st with
              users := st.users.map (fun u =>
                if u.uid = uid then
                  { u with standbys_read := u.standbys_read - 1,
                           standbys_pending := u.standbys_pending - 1 }
                else u),
              standbys_pending := st.standbys_pending - 1 }
          else queue_event st APM_USER_STANDBY (some uid)
        if st1.standbys_pending ≤ 0 then
          let r := standby bios st1
          (0, r.1, r.2)
        else (0, st1, [])
      else if cmd = APM_IOC_SUSPEND then
        let st1 :=
          if as.suspends_read > 0 then
            { st with
              users := st.users.map (fun u =>
                if u.uid = uid then
                  { u with suspends_read := u.suspends_read - 1,
                           suspends_pending := u.suspends_pending - 1 }
                else u),
              suspends_pending := st.suspends_pending - 1 }
          else queue_event st APM_USER_SUSPEND (some uid)
        if st1.suspends_pending ≤ 0 then
          suspend bios ver true st1
        else (0, st1, [])
      else (-EINVAL, st, [])

/-- The standby stage of do_release: when the departing client holds a
positive standby contribution, subtract it from the global counter and
run standby when the counter drops to zero or below. -/
def release_standbys (bios : Nat → Int) (st : ApmState) (as : ApmUser) :
    ApmState × List Act :=
  if as.standbys_pending > 0 then
    let stA := { st with
      standbys_pending := st.standbys_pending - as.standbys_pending }
    if stA.standbys_pending ≤ 0 then standby bios stA else (stA, [])
  else (st, [])

/-- The suspend stage of do_release, analogous to the standby stage. -/
def release_suspends (bios : Nat → Int) (ver : Nat) (st1 : ApmState)
    (as : ApmUser) : ApmState × List Act :=
  if as.suspends_pending > 0 then
    let stB := { st1 with
      suspends_pending := st1.suspends_pending - as.suspends_pending }
    if stB.suspends_pending ≤ 0 then
      let r := suspend bios ver true stB
      (r.2.1, r.2.2)
    else (stB, [])
  else (st1, [])

/-- do_release: subtract the positive pending contributions of the
departing client from the global counters, run the transition that a
counter dropping to zero or below unblocks (the client is still on
user_list at that point, exactly as in the C code), and finally unlink
the client. -/
def do_release (bios : Nat → Int) (ver : Nat) (st : ApmState) (uid : Nat) :
    ApmState × List Act :=
  match st.users.find? (fun u => u.uid = uid) with
  | none => (st, [])
  | some as =>
      let r1 := release_standbys bios st as
      let r2 := release_suspends bios ver r1.1 as
      ({ r2.1 with users := r2.1.users.eraseP (fun u => u.uid = uid) },
       r1.2 ++ r2.2)

/-- The switch of the check_events loop, operating on the state whose
bounce and normal-resume-echo flags have already been aged by
check_one.  USER_SUSPEND falls through to the SYS_SUSPEND handling
(CONFIG_APM_IGNORE_USER_SUSPEND is not set). -/
def check_one_core (bios : Nat → Int) (ver : Nat) (st : ApmState)
    (event : Nat) (now : Nat) : ApmState × List Act :=
  if event = APM_SYS_STANDBY ∨ event = APM_USER_STANDBY then
    let st1 := queue_event st event none
    if st1.standbys_pending ≤ 0 then standby bios st1 else (st1, [])
  else if event = APM_USER_SUSPEND ∨ event = APM_SYS_SUSPEND then
    if st.ignore_bounce then
      (st, if ver > 0x100 then
             [Act.setPower APM_STATE_REJECT (bios APM_STATE_REJECT)]
           else [])
    else if st.waiting_for_resume then (st, [])
    else
      let st1 := queue_event { st with waiting_for_resume := true } event none
      if st1.suspends_pending ≤ 0 then
        let r := suspend bios ver true st1
        (r.2.1, r.2.2)
      else (st1, [])
  else if event = APM_NORMAL_RESUME ∨ event = APM_CRITICAL_RESUME
          ∨ event = APM_STANDBY_RESUME then
    let st1 := { st with waiting_for_resume := false, last_resume := now,
                         ignore_bounce := true }
    if event ≠ APM_NORMAL_RESUME ∨ st.ignore_normal_resume = false then
      let r := pm_send_all PmRequest.resume 0 st1.devs
      let st2 := queue_event { st1 with devs := r.2.1 } event none
      ({ st2 with ignore_normal_resume := false }, r.2.2)
    else
      ({ st1 with ignore_normal_resume := false }, [])
  else if event = APM_CAPABILITY_CHANGE ∨ event = APM_LOW_BATTERY
          ∨ event = APM_POWER_STATUS_CHANGE then
    (queue_event st event none, [])
  else if event = APM_UPDATE_TIME then
    (st, [])
  else if event = APM_CRITICAL_SUSPEND then
    let r := suspend bios ver false st
    (r.2.1, r.2.2)
  else (st, [])

/-- One iteration of the check_events loop processing the event fetched
from the BIOS at time `now` (jiffies).  The bounce flag is aged out
first when the bounce interval has elapsed, and a pending normal-resume
echo suppression is cancelled by any other event; then the switch
handles the event. -/
def check_one (bios : Nat → Int) (ver : Nat) (st : ApmState)
    (event : Nat) (now : Nat) : ApmState × List Act :=
  check_one_core bios ver
    { st with
      ignore_bounce :=
        if st.ignore_bounce ∧ now - st.last_resume > bounce_interval
        then false else st.ignore_bounce,
      ignore_normal_resume :=
        if st.ignore_normal_resume ∧ event ≠ APM_NORMAL_RESUME
        then false else st.ignore_normal_resume }
    event now

/-! ## Operation machines

Sequences of client-facing operations (for the counter-conservation
claim) and of registry operations (for the registration-order claim). -/

/-- The client-facing operations named by the conservation claim:
connect (do_open), disconnect (do_release), broadcast_event
(queue_event) and acknowledge (do_ioctl). -/
inductive ClientOp where
  | opOpen (su wr rd : Bool)
  | opRelease (uid : Nat)
  | opBroadcast (event : Nat) (sender : Option Nat)
  | opIoctl (uid cmd : Nat)
deriving DecidableEq

/-- One client-facing operation applied to the driver state. -/
def stepClient (bios : Nat → Int) (ver : Nat) (st : ApmState)
    (op : ClientOp) : ApmState :=
  match op with
  | ClientOp.opOpen su wr rd => do_open st su wr rd
  | ClientOp.opRelease uid => (do_release bios ver st uid).1
  | ClientOp.opBroadcast e s => queue_event st e s
  | ClientOp.opIoctl uid cmd => (do_ioctl bios ver st uid cmd).2.1

/-- Run a sequence of client-facing operations from the load-time state. -/
def runClient (bios : Nat → Int) (ver : Nat) (ops : List ClientOp) :
    ApmState :=
  ops.foldl (stepClient bios ver) initState

/-- Device-registry operations: pm_register (with the fresh node handle
the allocator returned) and pm_unregister. -/
inductive RegOp where
  | reg (handle ty devid : Nat) (cb : Option (PmRequest → Int → Int))
  | unreg (handle : Nat)

/-- One registry operation. -/
def stepReg (devs : List PmDev) (op : RegOp) : List PmDev :=
  match op with
  | RegOp.reg h t i cb => pm_register h t i cb devs
  | RegOp.unreg h => pm_unregister h devs

/-- Run a sequence of registry operations from the empty registry. -/
def runReg (ops : List RegOp) : List PmDev :=
  ops.foldl stepReg []

/-- The handles passed to pm_register, in arrival order. -/
def arrivalHandles : List RegOp → List Nat
  | [] => []
  | RegOp.reg h _ _ _ :: rest => h :: arrivalHandles rest
  | RegOp.unreg _ :: rest => arrivalHandles rest

/-! ## Concrete objects used by witnesses and counterexamples -/

/-- A callback that accepts every request. -/
def cbAccept : PmRequest → Int → Int := fun _ _ => 0

/-- A callback that rejects every request with status 1. -/
def cbReject : PmRequest → Int → Int := fun _ _ => 1

/-- A callback that accepts a suspend but rejects the resume. -/
def cbNoResume : PmRequest → Int → Int :=
  fun r _ => if r = PmRequest.resume then 1 else 0

/-- A freshly registered device with the accepting callback. -/
def devAcc (h : Nat) : PmDev :=
  { handle := h, ty := 0, devid := h, callback := some cbAccept,
    state := 0, prev_state := 0 }

/-- A freshly registered device with the rejecting callback. -/
def devRej (h : Nat) : PmDev :=
  { handle := h, ty := 0, devid := h, callback := some cbReject,
    state := 0, prev_state := 0 }

/-- A freshly registered device that vetoes only resumes. -/
def devNoResume (h : Nat) : PmDev :=
  { handle := h, ty := 0, devid := h, callback := some cbNoResume,
    state := 0, prev_state := 0 }

/-- A backend that reports success for every power-state request. -/
def biosOk : Nat → Int := fun _ => 0

/-- The events 1..21 used by the overflow scenario. -/
def evs21 : List Nat := (List.range 21).map (fun i => i + 1)

/-! ## Basic facts about pm_send -/

/-- A failing pm_send leaves the device untouched. -/
theorem pm_send_fail (dev : PmDev) (rqst : PmRequest) (data : Int)
    (h : (pm_send dev rqst data).1 ≠ 0) :
    (pm_send dev rqst data).2.1 = dev := by
  cases rqst
  case other c =>
    simp [pm_send]
  all_goals
    simp only [pm_send, invokeCb] at h ⊢
    by_cases hd : dev.state = data
    · simp [hd] at h
    · cases hcb : dev.callback <;> simp [hcb, hd] at h ⊢
      split <;> simp_all

/-- A successful suspend or resume pm_send leaves the device at the
target state. -/
theorem pm_send_targets (dev : PmDev) (rqst : PmRequest) (data : Int)
    (hr : rqst = PmRequest.suspend ∨ rqst = PmRequest.resume)
    (h0 : (pm_send dev rqst data).1 = 0) :
    ((pm_send dev rqst data).2.1).state = data := by
  rcases hr with h | h <;> subst h <;>
    · by_cases hd : dev.state = data
      · simp [pm_send, hd]
      · simp only [pm_send, invokeCb] at h0 ⊢
        cases hcb : dev.callback <;> simp [hcb, hd] at h0 ⊢
        split at h0 <;> simp_all

/-- pm_send never changes the identity, type, id or callback of a
device. -/
theorem pm_send_skeleton (dev : PmDev) (rqst : PmRequest) (data : Int) :
    ((pm_send dev rqst data).2.1).handle = dev.handle ∧
    ((pm_send dev rqst data).2.1).ty = dev.ty ∧
    ((pm_send dev rqst data).2.1).devid = dev.devid ∧
    ((pm_send dev rqst data).2.1).callback = dev.callback := by
  cases rqst
  case other c =>
    simp [pm_send]
  all_goals
    simp only [pm_send, invokeCb]
    by_cases hd : dev.state = data
    · simp [hd]
    · cases hcb : dev.callback <;> simp [hcb, hd]
      split <;> simp [hcb]

/-! ## The forward pass and rollback of pm_send_all -/

/-- The state of a device after the forward pass of pm_send_all visited
it: devices with a callback are sent the request, the others are
skipped. -/
def fwd1 (rqst : PmRequest) (data : Int) (d : PmDev) : PmDev :=
  if d.callback.isSome then (pm_send d rqst data).2.1 else d

/-- The devices produced by pm_undo_all are the pointwise results of
pm_undo_one (the backward walk visits each node exactly once). -/
theorem pm_undo_all_fst (l : List PmDev) :
    (pm_undo_all l).1 = l.map (fun d => (pm_undo_one d).1) := by
  induction l with
  | nil => rfl
  | cons d ds ih => simp [pm_undo_all, ih]

/-- When every device with a callback accepts the request, the traversal
returns success and applies the forward pass to every device. -/
theorem pm_send_all_aux_success (rqst : PmRequest) (data : Int)
    (ds : List PmDev) :
    ∀ done : List PmDev,
    (∀ d ∈ ds, d.callback.isSome → (pm_send d rqst data).1 = 0) →
    (pm_send_all_aux rqst data done ds).1 = 0 ∧
    (pm_send_all_aux rqst data done ds).2.1
      = done.reverse ++ ds.map (fwd1 rqst data) := by
  induction ds with
  | nil => intro done _; simp [pm_send_all_aux]
  | cons d rest ih =>
      intro done h
      by_cases hcb : d.callback.isSome
      · have h0 := h d (by simp) hcb
        have ihr := ih ((pm_send d rqst data).2.1 :: done)
          (fun x hx => h x (by simp [hx]))
        simp only [pm_send_all_aux, hcb, if_true, h0, if_pos]
        refine ⟨ihr.1, ?_⟩
        rw [ihr.2]
        simp [fwd1, hcb]
      · have ihr := ih (d :: done) (fun x hx => h x (by simp [hx]))
        simp only [pm_send_all_aux, hcb, if_false, Bool.false_eq_true]
        refine ⟨ihr.1, ?_⟩
        rw [ihr.2]
        simp [fwd1, hcb]

/-- When the devices before `f` all accept the suspend and `f` vetoes it,
the traversal stops at `f`, returns the veto status, and replaces the
already-visited devices by their pm_undo_all rollback. -/
theorem pm_send_all_aux_fail (data : Int) (f : PmDev) (post : List PmDev)
    (hf : f.callback.isSome)
    (hs : (pm_send f PmRequest.suspend data).1 ≠ 0) :
    ∀ (pre done : List PmDev),
    (∀ d ∈ pre, d.callback.isSome → (pm_send d PmRequest.suspend data).1 = 0) →
    (pm_send_all_aux PmRequest.suspend data done (pre ++ f :: post)).1
      = (pm_send f PmRequest.suspend data).1 ∧
    (pm_send_all_aux PmRequest.suspend data done (pre ++ f :: post)).2.1
      = (pm_undo_all
            (done.reverse ++ pre.map (fwd1 PmRequest.suspend data))).1
          ++ f :: post := by
  intro pre
  induction pre with
  | nil =>
      intro done h
      have hff := pm_send_fail f PmRequest.suspend data hs
      simp [pm_send_all_aux, hf, hs, hff]
  | cons d rest ih =>
      intro done h
      by_cases hcb : d.callback.isSome
      · have h0 := h d (by simp) hcb
        have ihr := ih ((pm_send d PmRequest.suspend data).2.1 :: done)
          (fun x hx => h x (by simp [hx]))
        simp only [List.cons_append, pm_send_all_aux, hcb, if_true, h0,
          if_pos, List.append_eq]
        refine ⟨ihr.1, ?_⟩
        rw [ihr.2]
        simp [fwd1, hcb]
      · have ihr := ih (d :: done) (fun x hx => h x (by simp [hx]))
        simp only [List.cons_append, pm_send_all_aux, hcb, if_false,
          Bool.false_eq_true, List.append_eq]
        refine ⟨ihr.1, ?_⟩
        rw [ihr.2]
        simp [fwd1, hcb]

/-- A device whose forward suspend succeeded and whose callback accepts
the compensating inverse request is restored by the rollback to the state
it held before the broadcast. -/
theorem undo_restores (data : Int) (d : PmDev)
    (hcb : d.callback.isSome)
    (h0 : (pm_send d PmRequest.suspend data).1 = 0)
    (hundo : ∀ cb, d.callback = some cb → d.state ≠ data →
      cb (if d.state ≠ 0 then PmRequest.suspend else PmRequest.resume)
        d.state = 0) :
    ((pm_undo_one (fwd1 PmRequest.suspend data d)).1).state = d.state := by
  rcases Option.isSome_iff_exists.mp hcb with ⟨cb, hcbeq⟩
  by_cases hd : d.state = data
  · simp [fwd1, hcb, pm_send, hd, pm_undo_one]
  · have hcb0 : cb PmRequest.suspend data = 0 := by
      by_contra hne
      rw [show (pm_send d PmRequest.suspend data).1
            = cb PmRequest.suspend data by
          simp [pm_send, invokeCb, hcbeq, hd, hne]] at h0
      exact hne h0
    have hfwd : fwd1 PmRequest.suspend data d
        = { d with state := data, prev_state := d.state } := by
      simp [fwd1, hcb, pm_send, invokeCb, hcbeq, hd, hcb0]
    rw [hfwd]
    have hrestore := hundo cb hcbeq hd
    have hne2 : data ≠ d.state := fun hh => hd hh.symm
    by_cases hz : d.state = 0
    · have hu : (if d.state ≠ 0 then PmRequest.suspend else PmRequest.resume)
          = PmRequest.resume := by simp [hz]
      rw [hu] at hrestore
      rw [hz] at hne2 hrestore
      simp [pm_undo_one, pm_send, invokeCb, hcbeq, hz, hne2, hrestore]
    · have hu : (if d.state ≠ 0 then PmRequest.suspend else PmRequest.resume)
          = PmRequest.suspend := by simp [hz]
      rw [hu] at hrestore
      simp [pm_undo_one, pm_send, invokeCb, hcbeq, hz, hne2, hrestore]

/-! ## C3: event-queue overflow -/

/-- C3, counterexample.  Pushing N + 1 = 21 events into an initially
empty queue with N = APM_MAX_EVENTS = 20 slots does NOT leave the most
recent 20 events, and bumps the overflow counter twice, not once: the
head-meets-tail ring discipline stores at most 19 unread events. -/
theorem C3_queue_overflow_counterexample :
    queue_contents (push_events (mkUser 0 true true true) evs21).1
      ≠ (List.range 20).map (fun i => i + 2) ∧
    (push_events (mkUser 0 true true true) evs21).2 ≠ 1 := by
  decide

/-- C3, amended: the ring of N = 20 slots holds at most N - 1 = 19
unread events, so pushing 21 events into an initially empty queue leaves
exactly the 19 most recent events in push order, the two oldest events
having been evicted, with the overflow counter incremented by 2 (once per
evicting push). -/
theorem C3_queue_overflow :
    queue_contents (push_events (mkUser 0 true true true) evs21).1
      = (List.range 19).map (fun i => i + 3) ∧
    (push_events (mkUser 0 true true true) evs21).2 = 2 := by
  decide

/-! ## C9: send_one idempotence -/

/-- C9, counterexample.  When the first send fails (the callback vetoes),
the second identical send is NOT a no-op: the callback is invoked again
(once per call, so twice in a row) and the second call returns the veto
status 1, not success. -/
theorem C9_send_one_counterexample :
    ((pm_send (devRej 0) PmRequest.suspend 3).2.2).length = 1 ∧
    ((pm_send (pm_send (devRej 0) PmRequest.suspend 3).2.1
        PmRequest.suspend 3).2.2).length = 1 ∧
    (pm_send (pm_send (devRej 0) PmRequest.suspend 3).2.1
        PmRequest.suspend 3).1 = 1 := by
  decide

/-- C9, amended.  For a suspend or resume request: if the device state
already equals the target, pm_send records previous_state = state and
returns success with no callback invocation; one call invokes the
callback at most once; and whenever the FIRST call succeeds, the second
call with the same target is a no-op that returns success without
invoking the callback and leaves the state unchanged.  (The original
claim fails when the first call is vetoed: the callback then runs again
on the second call, which fails as well.) -/
theorem C9_send_one_idempotent (dev : PmDev) (rqst : PmRequest) (data : Int)
    (hr : rqst = PmRequest.suspend ∨ rqst = PmRequest.resume) :
    (dev.state = data →
      pm_send dev rqst data = (0, { dev with prev_state := dev.state }, [])) ∧
    ((pm_send dev rqst data).2.2).length ≤ 1 ∧
    ((pm_send dev rqst data).1 = 0 →
      pm_send (pm_send dev rqst data).2.1 rqst data
        = (0, { (pm_send dev rqst data).2.1 with
                prev_state := ((pm_send dev rqst data).2.1).state }, [])) := by
  have hsend : ∀ d : PmDev, d.state = data →
      pm_send d rqst data = (0, { d with prev_state := d.state }, []) := by
    intro d hd
    rcases hr with h | h <;> subst h <;>
      simp [pm_send, hd]
  refine ⟨hsend dev, ?_, ?_⟩
  · rcases hr with h | h <;> subst h <;>
      · by_cases hd : dev.state = data
        · simp [pm_send, hd]
        · simp only [pm_send, invokeCb]
          cases dev.callback
          · simp [hd]
          · simp [hd]
            split <;> simp
  · intro h0
    exact hsend _ (pm_send_targets dev rqst data hr h0)

/-- C9, witness: on an all-accepting device, the first suspend send
invokes the callback at most once and the second send is a no-op that
returns success without a callback. -/
theorem C9_send_one_idempotent_witness :
    ((devAcc 5).state = 3 →
      pm_send (devAcc 5) PmRequest.suspend 3
        = (0, { devAcc 5 with prev_state := (devAcc 5).state }, [])) ∧
    ((pm_send (devAcc 5) PmRequest.suspend 3).2.2).length ≤ 1 ∧
    ((pm_send (devAcc 5) PmRequest.suspend 3).1 = 0 →
      pm_send (pm_send (devAcc 5) PmRequest.suspend 3).2.1
          PmRequest.suspend 3
        = (0, { (pm_send (devAcc 5) PmRequest.suspend 3).2.1 with
                prev_state :=
                  ((pm_send (devAcc 5) PmRequest.suspend 3).2.1).state },
           [])) :=
  C9_send_one_idempotent (devAcc 5) PmRequest.suspend 3 (Or.inl rfl)

/-! ## C4: registration order -/

/-- A sublist of a duplicate-free list is recovered by filtering the
larger list down to the members of the sublist. -/
theorem sublist_eq_filter_mem {l' l : List Nat} (hsub : l'.Sublist l)
    (hnd : l.Nodup) : l' = l.filter (fun x => decide (x ∈ l')) := by
  induction hsub with
  | slnil => rfl
  | cons a hs ih =>
      rcases List.nodup_cons.mp hnd with ⟨ha, hnd'⟩
      have hal : a ∉ _ := fun hmem => ha (hs.subset hmem)
      rw [List.filter_cons, if_neg (by simpa using hal)]
      exact ih hnd'
  | cons₂ a hs ih =>
      rcases List.nodup_cons.mp hnd with ⟨ha, hnd'⟩
      rename_i l₁ l₂
      rw [List.filter_cons, if_pos (by simp)]
      have : l₂.filter (fun x => decide (x ∈ a :: l₁))
          = l₂.filter (fun x => decide (x ∈ l₁)) := by
        refine List.filter_congr ?_
        intro x hx
        have hxa : x ≠ a := fun hxe => ha (hxe ▸ hx)
        simp [hxa]
      rw [this, ← ih hnd']

/-- Invariant of the registry machine: the handles of the registry form
a sublist of the reversal of the already-seen arrivals extended by the
upcoming arrivals. -/
theorem runReg_aux (ops : List RegOp) (devs : List PmDev) (seen : List Nat)
    (hsub : (devs.map PmDev.handle).Sublist seen.reverse)
    (hfresh : ∀ x ∈ arrivalHandles ops, x ∉ seen)
    (hnd : (arrivalHandles ops).Nodup) :
    ((ops.foldl stepReg devs).map PmDev.handle).Sublist
      (seen ++ arrivalHandles ops).reverse := by
  induction ops generalizing devs seen with
  | nil => simpa using hsub
  | cons op rest ih =>
      cases op with
      | reg h t i cb =>
          rcases List.nodup_cons.mp (by simpa [arrivalHandles] using hnd)
            with ⟨hh, hnd'⟩
          have step1 : (RegOp.reg h t i cb :: rest).foldl stepReg devs
              = rest.foldl stepReg (pm_register h t i cb devs) := rfl
          have hsub' : ((pm_register h t i cb devs).map PmDev.handle).Sublist
              (seen ++ [h]).reverse := by
            simpa [pm_register] using List.Sublist.cons₂ h hsub
          have hfresh' : ∀ x ∈ arrivalHandles rest, x ∉ seen ++ [h] := by
            intro x hx
            simp only [List.mem_append, List.mem_singleton]
            rintro (hins | hxh)
            · exact hfresh x (by simp [arrivalHandles, hx]) hins
            · exact hh (hxh ▸ hx)
          have := ih (pm_register h t i cb devs) (seen ++ [h]) hsub' hfresh' hnd'
          rw [step1]
          simpa [arrivalHandles, List.append_assoc] using this
      | unreg h =>
          have step1 : (RegOp.unreg h :: rest).foldl stepReg devs
              = rest.foldl stepReg (pm_unregister h devs) := rfl
          have hsub' : ((pm_unregister h devs).map PmDev.handle).Sublist
              seen.reverse :=
            ((List.eraseP_sublist devs).map PmDev.handle).trans hsub
          have hfresh' : ∀ x ∈ arrivalHandles rest, x ∉ seen := by
            intro x hx
            exact hfresh x (by simpa [arrivalHandles] using hx)
          have := ih (pm_unregister h devs) seen hsub' hfresh'
            (by simpa [arrivalHandles] using hnd)
          rw [step1]
          simpa [arrivalHandles] using this

/-- C4, counterexample.  Registering device 0 and then device 1 yields
the iteration order [1, 0]: pm_register inserts at the FRONT (list_add
after the list head), so the iteration order is not the arrival order
[0, 1] the claim asserts. -/
theorem C4_registration_order_counterexample :
    (runReg [RegOp.reg 0 5 7 none, RegOp.reg 1 6 8 none]).map PmDev.handle
      = [1, 0] ∧
    ([1, 0] : List Nat) ≠ [0, 1] := by
  exact ⟨rfl, by decide⟩

/-- C4, amended.  pm_register PREPENDS the new device (list_add inserts
directly after the list head): for every sequence of register and
unregister operations in which the registered handles are pairwise
distinct (fresh allocations), the registry iteration order equals the
subsequence of still-registered devices in REVERSE registration (arrival)
order. -/
theorem C4_registration_order (ops : List RegOp)
    (hnd : (arrivalHandles ops).Nodup) :
    ((runReg ops).map PmDev.handle).Sublist (arrivalHandles ops).reverse ∧
    (runReg ops).map PmDev.handle
      = ((arrivalHandles ops).reverse).filter
          (fun x => decide (x ∈ (runReg ops).map PmDev.handle)) := by
  have hsub := runReg_aux ops [] [] (by simp) (by simp) hnd
  simp only [List.nil_append] at hsub
  exact ⟨hsub, sublist_eq_filter_mem hsub (List.nodup_reverse.mpr hnd)⟩

/-- The registration sequence used by the C4 witness: three devices
arrive, the middle one unregisters. -/
def regOps0 : List RegOp :=
  [RegOp.reg 0 1 1 none, RegOp.reg 1 1 2 none, RegOp.reg 2 1 3 none,
   RegOp.unreg 1]

/-- C4, witness: after registering handles 0, 1, 2 and unregistering 1,
the iteration order [2, 0] is the reverse-arrival subsequence of the
still-registered devices. -/
theorem C4_registration_order_witness :
    ((runReg regOps0).map PmDev.handle).Sublist
      (arrivalHandles regOps0).reverse ∧
    (runReg regOps0).map PmDev.handle
      = ((arrivalHandles regOps0).reverse).filter
          (fun x => decide (x ∈ (runReg regOps0).map PmDev.handle)) :=
  C4_registration_order regOps0 (by decide)

/-! ## Ring-buffer facts -/

/-- Well-formedness of a client queue: the two indices are in range and
the slot array has its full size (do_open establishes this and push and
pop preserve it). -/
def UserWF (as : ApmUser) : Prop :=
  as.event_head < APM_MAX_EVENTS ∧ as.event_tail < APM_MAX_EVENTS ∧
  as.events.length = APM_MAX_EVENTS

/-- The queue contents list has queue_size elements. -/
theorem queue_contents_length (as : ApmUser) :
    (queue_contents as).length = queue_size as := by
  simp [queue_contents]

theorem getD_set_self (l : List Nat) (j a : Nat) (hj : j < l.length) :
    (l.set j a).getD j 0 = a := by
  rw [List.getD_eq_getElem?_getD, List.getElem?_set_eq_of_lt a hj]
  rfl

theorem getD_set_ne (l : List Nat) (j k a : Nat) (h : j ≠ k) :
    (l.set j a).getD k 0 = l.getD k 0 := by
  rw [List.getD_eq_getElem?_getD, List.getElem?_set_ne h,
    ← List.getD_eq_getElem?_getD]

/-- A push into a queue that is not about to collide appends the event
and reports no overflow. -/
theorem push_event_no_evict (as : ApmUser) (e : Nat) (hw : UserWF as)
    (hs : queue_size as ≠ APM_MAX_EVENTS - 1) :
    (push_event as e).2 = false ∧
    queue_size (push_event as e).1 = queue_size as + 1 ∧
    queue_contents (push_event as e).1 = queue_contents as ++ [e] := by
  obtain ⟨h1, h2, h3⟩ := hw
  simp only [APM_MAX_EVENTS] at h1 h2 h3 hs
  have hszeq : queue_size as = (as.event_head + 20 - as.event_tail) % 20 := by
    simp [queue_size, APM_MAX_EVENTS]
  rw [hszeq] at hs
  have hne : (as.event_head + 1) % 20 ≠ as.event_tail := by omega
  have hpush : push_event as e
      = ({ as with event_head := (as.event_head + 1) % 20,
                   events := as.events.set ((as.event_head + 1) % 20) e },
         false) := by
    rw [push_event]
    simp only [APM_MAX_EVENTS]
    rw [if_neg hne]
  refine ⟨by rw [hpush], ?_, ?_⟩
  · rw [hpush, hszeq]
    simp only [queue_size, APM_MAX_EVENTS]
    omega
  · have hsize' : queue_size (push_event as e).1
        = (as.event_head + 20 - as.event_tail) % 20 + 1 := by
      rw [hpush]
      simp only [queue_size, APM_MAX_EVENTS]
      omega
    have hlen : (queue_contents as).length
        = (as.event_head + 20 - as.event_tail) % 20 := by
      rw [queue_contents_length, hszeq]
    refine List.ext_getElem ?_ ?_
    · rw [queue_contents_length, hsize', List.length_append, hlen]
      simp
    · intro i hi1 hi2
      rw [queue_contents_length, hsize'] at hi1
      by_cases hilt : i < (as.event_head + 20 - as.event_tail) % 20
      · rw [List.getElem_append_left (by rw [hlen]; exact hilt)]
        simp only [queue_contents, List.getElem_map, List.getElem_range,
          hpush, queue_size, APM_MAX_EVENTS]
        exact getD_set_ne _ _ _ _ (by omega)
      · have hieq : i = (as.event_head + 20 - as.event_tail) % 20 := by
          omega
        rw [List.getElem_append_right (by rw [hlen]; omega)]
        have hsingle : i - (queue_contents as).length = 0 := by
          rw [hlen]; omega
        simp only [hsingle, List.getElem_cons_zero]
        simp only [queue_contents, List.getElem_map, List.getElem_range,
          hpush, queue_size, APM_MAX_EVENTS]
        have hidx : (as.event_tail + 1 + i) % 20
            = (as.event_head + 1) % 20 := by omega
        rw [hidx]
        exact getD_set_self _ _ _ (by omega)

/-- A push into a queue holding APM_MAX_EVENTS - 1 unread events evicts
the oldest event, appends the new one and reports the overflow. -/
theorem push_event_evict (as : ApmUser) (e : Nat) (hw : UserWF as)
    (hs : queue_size as = APM_MAX_EVENTS - 1) :
    (push_event as e).2 = true ∧
    queue_size (push_event as e).1 = queue_size as ∧
    queue_contents (push_event as e).1
      = (queue_contents as).drop 1 ++ [e] := by
  obtain ⟨h1, h2, h3⟩ := hw
  simp only [APM_MAX_EVENTS] at h1 h2 h3 hs
  have hszeq : queue_size as = (as.event_head + 20 - as.event_tail) % 20 := by
    simp [queue_size, APM_MAX_EVENTS]
  rw [hszeq] at hs
  have heq : (as.event_head + 1) % 20 = as.event_tail := by omega
  have hpush : push_event as e
      = ({ as with event_head := (as.event_head + 1) % 20,
                   event_tail := (as.event_tail + 1) % 20,
                   events := as.events.set ((as.event_head + 1) % 20) e },
         true) := by
    rw [push_event]
    simp only [APM_MAX_EVENTS]
    rw [if_pos heq]
  have hsize' : queue_size (push_event as e).1 = 19 := by
    rw [hpush]
    simp only [queue_size, APM_MAX_EVENTS]
    omega
  have hlen : ((queue_contents as).drop 1).length = 18 := by
    rw [List.length_drop, queue_contents_length, hszeq]
    omega
  refine ⟨by rw [hpush], by rw [hsize', hszeq]; omega, ?_⟩
  refine List.ext_getElem ?_ ?_
  · rw [queue_contents_length, hsize', List.length_append, hlen]
    simp
  · intro i hi1 hi2
    rw [queue_contents_length, hsize'] at hi1
    by_cases hilt : i < 18
    · rw [List.getElem_append_left (by rw [hlen]; exact hilt)]
      rw [List.getElem_drop]
      simp only [queue_contents, List.getElem_map, List.getElem_range,
        hpush, queue_size, APM_MAX_EVENTS]
      have hidx : ((as.event_tail + 1) % 20 + 1 + i) % 20
          = (as.event_tail + 1 + (1 + i)) % 20 := by omega
      rw [hidx]
      exact getD_set_ne _ _ _ _ (by omega)
    · have hieq : i = 18 := by omega
      rw [List.getElem_append_right (by rw [hlen]; omega)]
      have hsingle : i - ((queue_contents as).drop 1).length = 0 := by
        rw [hlen]; omega
      simp only [hsingle, List.getElem_cons_zero]
      simp only [queue_contents, List.getElem_map, List.getElem_range,
        hpush, queue_size, APM_MAX_EVENTS]
      have hidx : ((as.event_tail + 1) % 20 + 1 + i) % 20
          = (as.event_head + 1) % 20 := by omega
      rw [hidx]
      exact getD_set_self _ _ _ (by omega)

/-- Pushes preserve queue well-formedness. -/
theorem push_event_wf (as : ApmUser) (e : Nat) (hw : UserWF as) :
    UserWF (push_event as e).1 := by
  obtain ⟨h1, h2, h3⟩ := hw
  rw [push_event]
  split <;>
    refine ⟨?_, ?_, ?_⟩ <;>
    simp [APM_MAX_EVENTS, h3] at * <;>
    omega

/-! ## Facts about deliver and queue_event -/

/-- A push changes only the queue fields of a client. -/
theorem push_event_fields (as : ApmUser) (e : Nat) :
    (push_event as e).1.uid = as.uid ∧
    (push_event as e).1.suser = as.suser ∧
    (push_event as e).1.writer = as.writer ∧
    (push_event as e).1.reader = as.reader ∧
    (push_event as e).1.suspends_pending = as.suspends_pending ∧
    (push_event as e).1.standbys_pending = as.standbys_pending ∧
    (push_event as e).1.suspends_read = as.suspends_read ∧
    (push_event as e).1.standbys_read = as.standbys_read := by
  rw [push_event]
  split <;> exact ⟨rfl, rfl, rfl, rfl, rfl, rfl, rfl, rfl⟩

/-- deliver leaves identity, capability flags and read counters alone and
bumps the pending counters by exactly the per-client deltas. -/
theorem deliver_counters (event : Nat) (sender : Option Nat) (as : ApmUser) :
    (deliver event sender as).uid = as.uid ∧
    (deliver event sender as).suser = as.suser ∧
    (deliver event sender as).writer = as.writer ∧
    (deliver event sender as).reader = as.reader ∧
    (deliver event sender as).suspends_read = as.suspends_read ∧
    (deliver event sender as).standbys_read = as.standbys_read ∧
    (deliver event sender as).suspends_pending
      = as.suspends_pending + suspDelta event sender as ∧
    (deliver event sender as).standbys_pending
      = as.standbys_pending + standbyDelta event sender as := by
  obtain ⟨f1, f2, f3, f4, f5, f6, f7, f8⟩ := push_event_fields as event
  rw [deliver, suspDelta, standbyDelta]
  split_ifs <;> simp_all

/-- In the receiving case deliver updates the queue exactly as push_event
does. -/
theorem deliver_queue_eq (event : Nat) (sender : Option Nat) (as : ApmUser)
    (h : ¬(sender = some as.uid ∨ as.reader = false)) :
    (deliver event sender as).event_head = (push_event as event).1.event_head ∧
    (deliver event sender as).event_tail = (push_event as event).1.event_tail ∧
    (deliver event sender as).events = (push_event as event).1.events := by
  rw [deliver, if_neg h]
  split_ifs <;> exact ⟨rfl, rfl, rfl⟩

/-- Contents delivered to a receiving well-formed client: the event is
appended, after evicting the oldest entry when the ring was full. -/
theorem deliver_contents (event : Nat) (sender : Option Nat) (as : ApmUser)
    (h : ¬(sender = some as.uid ∨ as.reader = false)) (hw : UserWF as) :
    queue_contents (deliver event sender as)
      = (if queue_size as = APM_MAX_EVENTS - 1
         then (queue_contents as).drop 1 else queue_contents as)
        ++ [event] ∧
    UserWF (deliver event sender as) := by
  obtain ⟨q1, q2, q3⟩ := deliver_queue_eq event sender as h
  have hcc : queue_contents (deliver event sender as)
      = queue_contents (push_event as event).1 := by
    simp [queue_contents, queue_size, q1, q2, q3]
  have hwf : UserWF (deliver event sender as) := by
    have := push_event_wf as event hw
    rw [UserWF, q1, q2, q3]
    exact this
  refine ⟨?_, hwf⟩
  by_cases hsz : queue_size as = APM_MAX_EVENTS - 1
  · rw [hcc, (push_event_evict as event hw hsz).2.2, if_pos hsz]
  · rw [hcc, (push_event_no_evict as event hw hsz).2.2, if_neg hsz]

/-- The queue_event loop maps deliver over the clients and accumulates
the pointwise global increments. -/
theorem queue_event_users_eq (event : Nat) (sender : Option Nat)
    (us : List ApmUser) :
    queue_event_users event sender us
      = (us.map (deliver event sender),
         (us.map (suspDelta event sender)).sum,
         (us.map (standbyDelta event sender)).sum) := by
  induction us with
  | nil => rfl
  | cons a rest ih => simp [queue_event_users, ih]

/-- queue_event maps deliver over the clients and adds the total deltas
to the global counters. -/
theorem queue_event_eq (st : ApmState) (event : Nat) (sender : Option Nat) :
    (queue_event st event sender).users
      = st.users.map (deliver event sender) ∧
    (queue_event st event sender).suspends_pending
      = st.suspends_pending + (st.users.map (suspDelta event sender)).sum ∧
    (queue_event st event sender).standbys_pending
      = st.standbys_pending + (st.users.map (standbyDelta event sender)).sum ∧
    (queue_event st event sender).devs = st.devs ∧
    (queue_event st event sender).waiting_for_resume
      = st.waiting_for_resume ∧
    (queue_event st event sender).ignore_normal_resume
      = st.ignore_normal_resume ∧
    (queue_event st event sender).ignore_bounce = st.ignore_bounce ∧
    (queue_event st event sender).last_resume = st.last_resume ∧
    (queue_event st event sender).nextId = st.nextId := by
  rw [queue_event]
  by_cases hne : st.users.isEmpty
  · rw [if_pos hne]
    rw [List.isEmpty_iff] at hne
    simp [hne]
  · rw [if_neg hne, queue_event_users_eq]
    simp

/-! ## Counter conservation machinery -/

/-- Total of the per-client suspends_pending counters. -/
def sumS (us : List ApmUser) : Int := (us.map ApmUser.suspends_pending).sum

/-- Total of the per-client standbys_pending counters. -/
def sumT (us : List ApmUser) : Int := (us.map ApmUser.standbys_pending).sum

/-- Per-client sanity: nonnegative pending counters and (because the
operation set of the conservation claim contains no read) zero read
counters. -/
def UserOK (u : ApmUser) : Prop :=
  0 ≤ u.suspends_pending ∧ 0 ≤ u.standbys_pending ∧
  u.suspends_read = 0 ∧ u.standbys_read = 0

/-- The conservation invariant: each global pending counter equals the
sum of the per-client counters, and every client is sane. -/
def ConsInv (st : ApmState) : Prop :=
  st.suspends_pending = sumS st.users ∧
  st.standbys_pending = sumT st.users ∧
  ∀ u ∈ st.users, UserOK u

theorem suspDelta_nonneg (e : Nat) (s : Option Nat) (u : ApmUser) :
    0 ≤ suspDelta e s u := by
  rw [suspDelta]
  split_ifs <;> decide

theorem standbyDelta_nonneg (e : Nat) (s : Option Nat) (u : ApmUser) :
    0 ≤ standbyDelta e s u := by
  rw [standbyDelta]
  split_ifs <;> decide

theorem suspDelta_eq_zero (e : Nat) (s : Option Nat) (u : ApmUser)
    (h : ¬(e = APM_SYS_SUSPEND ∨ e = APM_USER_SUSPEND)) :
    suspDelta e s u = 0 := by
  simp [suspDelta, h]

theorem standbyDelta_eq_zero (e : Nat) (s : Option Nat) (u : ApmUser)
    (h : ¬(e = APM_SYS_STANDBY ∨ e = APM_USER_STANDBY)) :
    standbyDelta e s u = 0 := by
  simp [standbyDelta, h]

theorem sum_suspDelta_nr (s : Option Nat) (us : List ApmUser) :
    (us.map (suspDelta APM_NORMAL_RESUME s)).sum = 0 := by
  refine List.sum_eq_zero ?_
  intro x hx
  rw [List.mem_map] at hx
  obtain ⟨u, _, rfl⟩ := hx
  exact suspDelta_eq_zero _ _ _ (by decide)

theorem sum_standbyDelta_nr (s : Option Nat) (us : List ApmUser) :
    (us.map (standbyDelta APM_NORMAL_RESUME s)).sum = 0 := by
  refine List.sum_eq_zero ?_
  intro x hx
  rw [List.mem_map] at hx
  obtain ⟨u, _, rfl⟩ := hx
  exact standbyDelta_eq_zero _ _ _ (by decide)

/-- Delivering an event changes the per-client counter total by the
total of the per-client deltas. -/
theorem sumS_map_deliver (e : Nat) (s : Option Nat) (us : List ApmUser) :
    sumS (us.map (deliver e s)) = sumS us + (us.map (suspDelta e s)).sum := by
  induction us with
  | nil => simp [sumS]
  | cons a rest ih =>
      have c7 := (deliver_counters e s a).2.2.2.2.2.2.1
      simp only [sumS, List.map_cons, List.sum_cons] at ih ⊢
      rw [c7, ih]
      ring

theorem sumT_map_deliver (e : Nat) (s : Option Nat) (us : List ApmUser) :
    sumT (us.map (deliver e s)) = sumT us + (us.map (standbyDelta e s)).sum := by
  induction us with
  | nil => simp [sumT]
  | cons a rest ih =>
      have c8 := (deliver_counters e s a).2.2.2.2.2.2.2
      simp only [sumT, List.map_cons, List.sum_cons] at ih ⊢
      rw [c8, ih]
      ring

theorem deliver_ok (e : Nat) (s : Option Nat) (u : ApmUser)
    (h : UserOK u) : UserOK (deliver e s u) := by
  obtain ⟨c1, c2, c3, c4, c5, c6, c7, c8⟩ := deliver_counters e s u
  obtain ⟨o1, o2, o3, o4⟩ := h
  have hd1 := suspDelta_nonneg e s u
  have hd2 := standbyDelta_nonneg e s u
  exact ⟨by rw [c7]; omega, by rw [c8]; omega, by rw [c5]; exact o3,
    by rw [c6]; exact o4⟩

/-- queue_event preserves the conservation invariant. -/
theorem queue_event_inv (st : ApmState) (e : Nat) (s : Option Nat)
    (h : ConsInv st) : ConsInv (queue_event st e s) := by
  obtain ⟨h1, h2, h3⟩ := h
  obtain ⟨g1, g2, g3, _⟩ := queue_event_eq st e s
  refine ⟨?_, ?_, ?_⟩
  · rw [g2, g1, sumS_map_deliver, h1]
  · rw [g3, g1, sumT_map_deliver, h2]
  · rw [g1]
    intro u hu
    rw [List.mem_map] at hu
    obtain ⟨u0, hu0, rfl⟩ := hu
    exact deliver_ok e s u0 (h3 u0 hu0)

/-- suspend never changes the global pending counters, and either leaves
the client list alone (veto path) or delivers the synthetic normal-resume
event to it. -/
theorem suspend_effects (bios : Nat → Int) (ver : Nat) (v : Bool)
    (st : ApmState) :
    (suspend bios ver v st).2.1.suspends_pending = st.suspends_pending ∧
    (suspend bios ver v st).2.1.standbys_pending = st.standbys_pending ∧
    ((suspend bios ver v st).2.1.users = st.users ∨
     (suspend bios ver v st).2.1.users
       = st.users.map (deliver APM_NORMAL_RESUME none)) := by
  rw [suspend]
  by_cases hv : (pm_send_all PmRequest.suspend 3 st.devs).1 ≠ 0 ∧ v = true
  · rw [if_pos hv]
    exact ⟨rfl, rfl, Or.inl rfl⟩
  · rw [if_neg hv]
    obtain ⟨g1, g2, g3, _⟩ := queue_event_eq
      { st with devs := (pm_send_all PmRequest.resume 0
          (pm_send_all PmRequest.suspend 3 st.devs).2.1).2.1 }
      APM_NORMAL_RESUME none
    refine ⟨?_, ?_, Or.inr ?_⟩
    · show (queue_event _ APM_NORMAL_RESUME none).suspends_pending = _
      rw [g2]
      show st.suspends_pending + _ = st.suspends_pending
      rw [sum_suspDelta_nr]
      ring
    · show (queue_event _ APM_NORMAL_RESUME none).standbys_pending = _
      rw [g3]
      show st.standbys_pending + _ = st.standbys_pending
      rw [sum_standbyDelta_nr]
      ring
    · show (queue_event _ APM_NORMAL_RESUME none).users = _
      rw [g1]

/-- suspend preserves the conservation invariant. -/
theorem suspend_inv (bios : Nat → Int) (ver : Nat) (v : Bool)
    (st : ApmState) (h : ConsInv st) : ConsInv (suspend bios ver v st).2.1 := by
  obtain ⟨e1, e2, e3⟩ := suspend_effects bios ver v st
  obtain ⟨h1, h2, h3⟩ := h
  rcases e3 with he | he
  · exact ⟨by rw [e1, he, h1], by rw [e2, he, h2], by rw [he]; exact h3⟩
  · refine ⟨?_, ?_, ?_⟩
    · rw [e1, he, sumS_map_deliver, sum_suspDelta_nr, h1]
      ring
    · rw [e2, he, sumT_map_deliver, sum_standbyDelta_nr, h2]
      ring
    · rw [he]
      intro u hu
      rw [List.mem_map] at hu
      obtain ⟨u0, hu0, rfl⟩ := hu
      exact deliver_ok _ _ u0 (h3 u0 hu0)

/-- find? by uid commutes with mapping deliver over the client list. -/
theorem find?_map_deliver (e : Nat) (s : Option Nat) (uid : Nat)
    (us : List ApmUser) :
    (us.map (deliver e s)).find? (fun u => u.uid = uid)
      = (us.find? (fun u => u.uid = uid)).map (deliver e s) := by
  induction us with
  | nil => rfl
  | cons a rest ih =>
      have hu : (deliver e s a).uid = a.uid := (deliver_counters e s a).1
      by_cases hp : a.uid = uid
      · rw [List.map_cons, List.find?_cons_of_pos _ (by simp [hu, hp]),
          List.find?_cons_of_pos _ (by simp [hp])]
        rfl
      · rw [List.map_cons, List.find?_cons_of_neg _ (by simp [hu, hp]),
          List.find?_cons_of_neg _ (by simp [hp]), ih]

/-- Removing the client that find? locates subtracts exactly its pending
contributions from the totals. -/
theorem sums_eraseP (p : ApmUser → Bool) (us : List ApmUser) (a : ApmUser)
    (hfind : us.find? p = some a) :
    sumS (us.eraseP p) = sumS us - a.suspends_pending ∧
    sumT (us.eraseP p) = sumT us - a.standbys_pending := by
  induction us with
  | nil => simp at hfind
  | cons u rest ih =>
      by_cases hp : p u
      · rw [List.find?_cons_of_pos _ hp] at hfind
        have ha : u = a := by injection hfind
        subst ha
        rw [List.eraseP_cons_of_pos hp]
        constructor <;> simp [sumS, sumT]
      · rw [List.find?_cons_of_neg _ hp] at hfind
        obtain ⟨i1, i2⟩ := ih hfind
        rw [List.eraseP_cons_of_neg hp]
        constructor <;> simp only [sumS, sumT, List.map_cons, List.sum_cons]
        · simp only [sumS] at i1
          omega
        · simp only [sumT] at i2
          omega

/-- do_open preserves the conservation invariant. -/
theorem do_open_inv (st : ApmState) (su wr rd : Bool) (h : ConsInv st) :
    ConsInv (do_open st su wr rd) := by
  obtain ⟨h1, h2, h3⟩ := h
  refine ⟨?_, ?_, ?_⟩
  · simp only [do_open, sumS, List.map_cons, List.sum_cons, mkUser]
    simp only [sumS] at h1
    omega
  · simp only [do_open, sumT, List.map_cons, List.sum_cons, mkUser]
    simp only [sumT] at h2
    omega
  · intro u hu
    rcases List.mem_cons.mp hu with hu | hu
    · subst hu
      exact ⟨by simp [mkUser], by simp [mkUser], rfl, rfl⟩
    · exact h3 u hu

/-- do_ioctl preserves the conservation invariant (the decrement branch
is unreachable because no operation of the machine reads events, so the
read counters stay zero). -/
theorem do_ioctl_inv (bios : Nat → Int) (ver : Nat) (st : ApmState)
    (uid cmd : Nat) (h : ConsInv st) :
    ConsInv (do_ioctl bios ver st uid cmd).2.1 := by
  rw [do_ioctl]
  cases hf : st.users.find? (fun u => u.uid = uid) with
  | none => exact h
  | some as =>
      dsimp only
      have hmem := List.mem_of_find?_eq_some hf
      have hok := h.2.2 as hmem
      by_cases hsw : ¬(as.suser && as.writer)
      · rw [if_pos hsw]
        exact h
      · rw [if_neg hsw]
        by_cases hc1 : cmd = APM_IOC_STANDBY
        · rw [if_pos hc1]
          have hread : ¬ as.standbys_read > 0 := by
            rw [hok.2.2.2]
            omega
          rw [if_neg hread]
          have hinv1 := queue_event_inv st APM_USER_STANDBY (some uid) h
          by_cases hz :
              (queue_event st APM_USER_STANDBY (some uid)).standbys_pending ≤ 0
          · rw [if_pos hz]
            exact hinv1
          · rw [if_neg hz]
            exact hinv1
        · rw [if_neg hc1]
          by_cases hc2 : cmd = APM_IOC_SUSPEND
          · rw [if_pos hc2]
            have hread : ¬ as.suspends_read > 0 := by
              rw [hok.2.2.1]
              omega
            rw [if_neg hread]
            have hinv1 := queue_event_inv st APM_USER_SUSPEND (some uid) h
            by_cases hz :
                (queue_event st APM_USER_SUSPEND (some uid)).suspends_pending ≤ 0
            · rw [if_pos hz]
              exact suspend_inv bios ver true _ hinv1
            · rw [if_neg hz]
              exact hinv1
          · rw [if_neg hc2]
            exact h

/-- The standby stage keeps the client list and the suspend counter and
subtracts the standby contribution of the departing client. -/
theorem release_standbys_spec (bios : Nat → Int) (st : ApmState)
    (as : ApmUser) (h0 : 0 ≤ as.standbys_pending) :
    (release_standbys bios st as).1.users = st.users ∧
    (release_standbys bios st as).1.suspends_pending
      = st.suspends_pending ∧
    (release_standbys bios st as).1.standbys_pending
      = st.standbys_pending - as.standbys_pending := by
  rw [release_standbys]
  by_cases hb : as.standbys_pending > 0
  · rw [if_pos hb]
    dsimp only
    by_cases hz : st.standbys_pending - as.standbys_pending ≤ 0
    · rw [if_pos hz]
      exact ⟨rfl, rfl, rfl⟩
    · rw [if_neg hz]
      exact ⟨rfl, rfl, rfl⟩
  · rw [if_neg hb]
    refine ⟨rfl, rfl, ?_⟩
    show st.standbys_pending = st.standbys_pending - as.standbys_pending
    omega

/-- The suspend stage subtracts the suspend contribution of the
departing client, keeps the standby counter, and either keeps the client
list or delivers the synthetic normal-resume event to it. -/
theorem release_suspends_spec (bios : Nat → Int) (ver : Nat)
    (st1 : ApmState) (as : ApmUser) (h0 : 0 ≤ as.suspends_pending) :
    ((release_suspends bios ver st1 as).1.users = st1.users ∨
     (release_suspends bios ver st1 as).1.users
       = st1.users.map (deliver APM_NORMAL_RESUME none)) ∧
    (release_suspends bios ver st1 as).1.suspends_pending
      = st1.suspends_pending - as.suspends_pending ∧
    (release_suspends bios ver st1 as).1.standbys_pending
      = st1.standbys_pending := by
  rw [release_suspends]
  by_cases hb : as.suspends_pending > 0
  · rw [if_pos hb]
    dsimp only
    by_cases hz : st1.suspends_pending - as.suspends_pending ≤ 0
    · rw [if_pos hz]
      obtain ⟨e1, e2, e3⟩ := suspend_effects bios ver true
        { st1 with
          suspends_pending := st1.suspends_pending - as.suspends_pending }
      refine ⟨?_, by rw [e1], by rw [e2]⟩
      rcases e3 with he | he
      · exact Or.inl (by rw [he])
      · exact Or.inr (by rw [he])
    · rw [if_neg hz]
      exact ⟨Or.inl rfl, rfl, rfl⟩
  · rw [if_neg hb]
    refine ⟨Or.inl rfl, ?_, rfl⟩
    show st1.suspends_pending = st1.suspends_pending - as.suspends_pending
    omega

/-- do_release preserves the conservation invariant: the departing
client contribution leaves the global counter and the per-client total
at the same time. -/
theorem do_release_inv (bios : Nat → Int) (ver : Nat) (st : ApmState)
    (uid : Nat) (h : ConsInv st) :
    ConsInv (do_release bios ver st uid).1 := by
  rw [do_release]
  cases hf : st.users.find? (fun u => u.uid = uid) with
  | none => exact h
  | some as =>
      dsimp only
      obtain ⟨h1, h2, h3⟩ := h
      have hok := h3 as (List.mem_of_find?_eq_some hf)
      obtain ⟨s1u, s1s, s1t⟩ := release_standbys_spec bios st as hok.2.1
      obtain ⟨s2u, s2s, s2t⟩ := release_suspends_spec bios ver
        (release_standbys bios st as).1 as hok.1
      have hsusp : (release_suspends bios ver
            (release_standbys bios st as).1 as).1.suspends_pending
          = st.suspends_pending - as.suspends_pending := by
        rw [s2s, s1s]
      have hstand : (release_suspends bios ver
            (release_standbys bios st as).1 as).1.standbys_pending
          = st.standbys_pending - as.standbys_pending := by
        rw [s2t, s1t]
      rw [s1u] at s2u
      rcases s2u with hu | hu
      · refine ⟨?_, ?_, ?_⟩
        · show (release_suspends bios ver (release_standbys bios st as).1
              as).1.suspends_pending = sumS _
          rw [hsusp, hu, (sums_eraseP _ st.users as hf).1, h1]
        · show (release_suspends bios ver (release_standbys bios st as).1
              as).1.standbys_pending = sumT _
          rw [hstand, hu, (sums_eraseP _ st.users as hf).2, h2]
        · intro u hu2
          simp only [hu] at hu2
          exact h3 u ((List.eraseP_sublist st.users).subset hu2)
      · have hfind2 : (st.users.map
              (deliver APM_NORMAL_RESUME none)).find? (fun u => u.uid = uid)
            = some (deliver APM_NORMAL_RESUME none as) := by
          rw [find?_map_deliver, hf]
          rfl
        have c7 := (deliver_counters APM_NORMAL_RESUME none as).2.2.2.2.2.2.1
        have c8 := (deliver_counters APM_NORMAL_RESUME none as).2.2.2.2.2.2.2
        have hd7 : (deliver APM_NORMAL_RESUME none as).suspends_pending
            = as.suspends_pending := by
          rw [c7, suspDelta_eq_zero _ _ _ (by decide)]
          ring
        have hd8 : (deliver APM_NORMAL_RESUME none as).standbys_pending
            = as.standbys_pending := by
          rw [c8, standbyDelta_eq_zero _ _ _ (by decide)]
          ring
        refine ⟨?_, ?_, ?_⟩
        · show (release_suspends bios ver (release_standbys bios st as).1
              as).1.suspends_pending = sumS _
          rw [hsusp, hu, (sums_eraseP _ _ _ hfind2).1, hd7,
            sumS_map_deliver, sum_suspDelta_nr, h1]
          ring
        · show (release_suspends bios ver (release_standbys bios st as).1
              as).1.standbys_pending = sumT _
          rw [hstand, hu, (sums_eraseP _ _ _ hfind2).2, hd8,
            sumT_map_deliver, sum_standbyDelta_nr, h2]
          ring
        · intro u hu2
          simp only [hu] at hu2
          have hmem2 := (List.eraseP_sublist _).subset hu2
          rw [List.mem_map] at hmem2
          obtain ⟨u0, hu0, rfl⟩ := hmem2
          exact deliver_ok _ _ u0 (h3 u0 hu0)

/-- Every operation of the client machine preserves the conservation
invariant. -/
theorem stepClient_inv (bios : Nat → Int) (ver : Nat) (st : ApmState)
    (op : ClientOp) (h : ConsInv st) :
    ConsInv (stepClient bios ver st op) := by
  cases op with
  | opOpen su wr rd => exact do_open_inv st su wr rd h
  | opRelease uid => exact do_release_inv bios ver st uid h
  | opBroadcast e s => exact queue_event_inv st e s h
  | opIoctl uid cmd => exact do_ioctl_inv bios ver st uid cmd h

/-! ## Trace classification -/

/-- Recognizes a device-callback action. -/
def isCallbackAct : Act → Bool
  | Act.callback _ _ _ _ _ => true
  | _ => false

/-- Recognizes a BIOS power-state action. -/
def isSetPowerAct : Act → Bool
  | Act.setPower _ _ => true
  | _ => false

/-- Everything pm_send records is a callback invocation. -/
theorem pm_send_trace_callback (dev : PmDev) (rqst : PmRequest) (data : Int) :
    ∀ a ∈ (pm_send dev rqst data).2.2, isCallbackAct a = true := by
  cases rqst
  case other c =>
    simp only [pm_send, invokeCb]
    cases hcb : dev.callback <;> simp [isCallbackAct]
  all_goals
    simp only [pm_send, invokeCb]
    by_cases hd : dev.state = data
    · simp [hd]
    · cases hcb : dev.callback <;> simp [hd, isCallbackAct]
      split <;> simp [isCallbackAct]

/-- Everything pm_undo_one records is a callback invocation. -/
theorem pm_undo_one_trace (d : PmDev) :
    ∀ a ∈ (pm_undo_one d).2, isCallbackAct a = true := by
  rw [pm_undo_one]
  split
  · exact pm_send_trace_callback _ _ _
  · intro a ha
    simp at ha

/-- Everything pm_undo_all records is a callback invocation. -/
theorem pm_undo_all_trace (l : List PmDev) :
    ∀ a ∈ (pm_undo_all l).2, isCallbackAct a = true := by
  induction l with
  | nil => intro a ha; simp [pm_undo_all] at ha
  | cons d ds ih =>
      intro a ha
      simp only [pm_undo_all, List.mem_append] at ha
      rcases ha with ha | ha
      · exact ih a ha
      · exact pm_undo_one_trace d a ha

/-- Everything the pm_send_all traversal records is a callback
invocation. -/
theorem pm_send_all_aux_trace (rqst : PmRequest) (data : Int)
    (ds : List PmDev) :
    ∀ done : List PmDev,
    ∀ a ∈ (pm_send_all_aux rqst data done ds).2.2, isCallbackAct a = true := by
  induction ds with
  | nil => intro done a ha; simp [pm_send_all_aux] at ha
  | cons d rest ih =>
      intro done a ha
      by_cases hcb : d.callback.isSome
      · simp only [pm_send_all_aux, hcb, if_true] at ha
        by_cases hr : (pm_send d rqst data).1 = 0
        · rw [if_pos hr] at ha
          simp only [List.mem_append] at ha
          rcases ha with ha | ha
          · exact pm_send_trace_callback d rqst data a ha
          · exact ih _ a ha
        · rw [if_neg hr] at ha
          by_cases hrq : rqst = PmRequest.suspend
          · rw [if_pos hrq] at ha
            simp only [List.mem_append] at ha
            rcases ha with ha | ha
            · exact pm_send_trace_callback d rqst data a ha
            · exact pm_undo_all_trace _ a ha
          · rw [if_neg hrq] at ha
            exact pm_send_trace_callback d rqst data a ha
      · simp only [pm_send_all_aux, hcb, if_false, Bool.false_eq_true] at ha
        exact ih _ a ha

/-- Everything pm_send_all records is a callback invocation. -/
theorem pm_send_all_trace (rqst : PmRequest) (data : Int)
    (devs : List PmDev) :
    ∀ a ∈ (pm_send_all rqst data devs).2.2, isCallbackAct a = true :=
  pm_send_all_aux_trace rqst data devs []

theorem callback_not_setPower (a : Act) (h : isCallbackAct a = true) :
    isSetPowerAct a = false := by
  cases a <;> simp [isSetPowerAct, isCallbackAct] at h ⊢

/-- The suspend procedure always records its entry first. -/
theorem suspend_trace_head (bios : Nat → Int) (ver : Nat) (v : Bool)
    (st : ApmState) :
    ∃ tr, (suspend bios ver v st).2.2 = Act.enterSuspend v :: tr := by
  rw [suspend]
  split
  · exact ⟨_, rfl⟩
  · exact ⟨_, rfl⟩

/-! ## C2: counter conservation -/

/-- C2.  For every sequence of connect (do_open), disconnect
(do_release), broadcast_event (queue_event) and acknowledge (do_ioctl)
operations, the reachable state has its global suspends_pending equal to
the sum of the connected clients per-client suspends_pending (and
likewise for the standby counters); in particular one further disconnect
again leaves the equality intact, subtracting exactly the contribution
of the departing client. -/
theorem C2_counter_conservation (bios : Nat → Int) (ver : Nat)
    (ops : List ClientOp) :
    (runClient bios ver ops).suspends_pending
      = sumS (runClient bios ver ops).users ∧
    (runClient bios ver ops).standbys_pending
      = sumT (runClient bios ver ops).users ∧
    ∀ uid : Nat,
      (do_release bios ver (runClient bios ver ops) uid).1.suspends_pending
        = sumS (do_release bios ver (runClient bios ver ops) uid).1.users ∧
      (do_release bios ver (runClient bios ver ops) uid).1.standbys_pending
        = sumT (do_release bios ver (runClient bios ver ops) uid).1.users := by
  have hfold : ∀ (l : List ClientOp) (s : ApmState), ConsInv s →
      ConsInv (l.foldl (stepClient bios ver) s) := by
    intro l
    induction l with
    | nil => intro s hs; exact hs
    | cons o rest ih =>
        intro s hs
        exact ih _ (stepClient_inv bios ver s o hs)
  have hinit : ConsInv initState :=
    ⟨rfl, rfl, by intro u hu; simp [initState] at hu⟩
  have hrun : ConsInv (runClient bios ver ops) := hfold ops initState hinit
  refine ⟨hrun.1, hrun.2.1, ?_⟩
  intro uid
  have hrel := do_release_inv bios ver (runClient bios ver ops) uid hrun
  exact ⟨hrel.1, hrel.2.1⟩

/-! ## C8: broadcast_event -/

/-- C8, counterexample.  A connected client that is not the sender but
was opened without read capability does NOT get the event pushed into
its queue: queue_event skips non-reader clients entirely, so its queue
stays empty after a SystemSuspend broadcast. -/
theorem C8_broadcast_event_counterexample :
    (queue_event { initState with users := [mkUser 0 true true false] }
        APM_SYS_SUSPEND none).users
      = [mkUser 0 true true false] ∧
    queue_contents (mkUser 0 true true false) = [] ∧
    APM_SYS_SUSPEND ∉ queue_contents (mkUser 0 true true false) := by
  refine ⟨rfl, by decide, by decide⟩

/-- C8, amended.  queue_event pushes the event into the queue of every
connected READER client except the excluded sender (evicting the oldest
entry when the ring already holds APM_MAX_EVENTS - 1 unread events);
non-reader clients and the sender are left completely unchanged; the
per-client and global pending counters are incremented exactly for the
privileged write-capable reader clients that received the event, for the
suspend counters when the event is SystemSuspend or UserSuspend and for
the standby counters when it is SystemStandby or UserStandby; no other
per-client state changes (identity, capability flags and read counters
are untouched). -/
theorem C8_broadcast_event (st : ApmState) (event : Nat)
    (sender : Option Nat) :
    (queue_event st event sender).users
      = st.users.map (deliver event sender) ∧
    (queue_event st event sender).suspends_pending
      = st.suspends_pending + (st.users.map (suspDelta event sender)).sum ∧
    (queue_event st event sender).standbys_pending
      = st.standbys_pending + (st.users.map (standbyDelta event sender)).sum ∧
    (∀ as ∈ st.users, (sender = some as.uid ∨ as.reader = false) →
      deliver event sender as = as) ∧
    (∀ as ∈ st.users, ¬(sender = some as.uid ∨ as.reader = false) →
      UserWF as →
      queue_contents (deliver event sender as)
        = (if queue_size as = APM_MAX_EVENTS - 1
           then (queue_contents as).drop 1 else queue_contents as)
          ++ [event] ∧
      (deliver event sender as).suspends_pending
        = as.suspends_pending
          + (if as.suser && as.writer then
               (if event = APM_SYS_SUSPEND ∨ event = APM_USER_SUSPEND
                then 1 else 0)
             else 0) ∧
      (deliver event sender as).standbys_pending
        = as.standbys_pending
          + (if as.suser && as.writer then
               (if event = APM_SYS_SUSPEND ∨ event = APM_USER_SUSPEND
                then 0
                else if event = APM_SYS_STANDBY ∨ event = APM_USER_STANDBY
                then 1 else 0)
             else 0) ∧
      (deliver event sender as).uid = as.uid ∧
      (deliver event sender as).suser = as.suser ∧
      (deliver event sender as).writer = as.writer ∧
      (deliver event sender as).reader = as.reader ∧
      (deliver event sender as).suspends_read = as.suspends_read ∧
      (deliver event sender as).standbys_read = as.standbys_read) := by
  obtain ⟨g1, g2, g3, _⟩ := queue_event_eq st event sender
  refine ⟨g1, g2, g3, ?_, ?_⟩
  · intro as _ hex
    rw [deliver, if_pos hex]
  · intro as _ hex hw
    obtain ⟨c1, c2, c3, c4, c5, c6, c7, c8⟩ := deliver_counters event sender as
    refine ⟨(deliver_contents event sender as hex hw).1, ?_, ?_,
      c1, c2, c3, c4, c5, c6⟩
    · rw [c7, suspDelta, if_neg hex]
    · rw [c8, standbyDelta, if_neg hex]

/-- The state used by the C8 witness: client 0 is a privileged
writer-reader, client 1 (the sender) is too. -/
def stC8w : ApmState :=
  { initState with users := [mkUser 0 true true true, mkUser 1 true true true] }

/-- C8, witness: broadcasting SystemSuspend from sender 1 maps deliver
over both clients, and client 0 (a receiving privileged writer-reader)
gets the event appended to its queue with its suspend pending counter
incremented. -/
theorem C8_broadcast_event_witness :
    (queue_event stC8w APM_SYS_SUSPEND (some 1)).users
      = stC8w.users.map (deliver APM_SYS_SUSPEND (some 1)) ∧
    queue_contents (deliver APM_SYS_SUSPEND (some 1) (mkUser 0 true true true))
      = (if queue_size (mkUser 0 true true true) = APM_MAX_EVENTS - 1
         then (queue_contents (mkUser 0 true true true)).drop 1
         else queue_contents (mkUser 0 true true true))
        ++ [APM_SYS_SUSPEND] ∧
    (deliver APM_SYS_SUSPEND (some 1)
        (mkUser 0 true true true)).suspends_pending
      = (mkUser 0 true true true).suspends_pending
        + (if (mkUser 0 true true true).suser
              && (mkUser 0 true true true).writer then
             (if APM_SYS_SUSPEND = APM_SYS_SUSPEND
                 ∨ APM_SYS_SUSPEND = APM_USER_SUSPEND then 1 else 0)
           else 0) := by
  have h := C8_broadcast_event stC8w APM_SYS_SUSPEND (some 1)
  have hreceive := h.2.2.2.2 (mkUser 0 true true true) (by simp [stC8w])
    (by decide) (by simp only [UserWF]; decide)
  exact ⟨h.1, hreceive.1, hreceive.2.1⟩

/-! ## C1: veto and rollback of a suspend broadcast -/

/-- C1.  First part: when the devices are pre ++ f :: post, every device
in pre has a callback that accepts the suspend (or needs no transition),
f has a callback that vetoes it, and the callbacks of the transitioned
devices accept the compensating inverse request, then pm_send_all
returns the status of the vetoing device and every device is left at the
state it held before the broadcast (the devices in pre are rolled back by
the backward pm_undo_all walk, whose compensating sends have their status
ignored).  Second part: when every device accepts, pm_send_all returns 0
and every device ends at the target state. -/
theorem C1_suspend_veto_rollback (data : Int) :
    (∀ (pre : List PmDev) (f : PmDev) (post : List PmDev),
      (∀ d ∈ pre, d.callback.isSome) →
      (∀ d ∈ pre, (pm_send d PmRequest.suspend data).1 = 0) →
      (∀ d ∈ pre, ∀ cb, d.callback = some cb → d.state ≠ data →
        cb (if d.state ≠ 0 then PmRequest.suspend else PmRequest.resume)
          d.state = 0) →
      f.callback.isSome →
      (pm_send f PmRequest.suspend data).1 ≠ 0 →
      (pm_send_all PmRequest.suspend data (pre ++ f :: post)).1
        = (pm_send f PmRequest.suspend data).1 ∧
      ((pm_send_all PmRequest.suspend data (pre ++ f :: post)).2.1).map
          PmDev.state
        = (pre ++ f :: post).map PmDev.state) ∧
    (∀ devs : List PmDev,
      (∀ d ∈ devs, d.callback.isSome) →
      (∀ d ∈ devs, (pm_send d PmRequest.suspend data).1 = 0) →
      (pm_send_all PmRequest.suspend data devs).1 = 0 ∧
      ∀ d ∈ (pm_send_all PmRequest.suspend data devs).2.1,
        d.state = data) := by
  constructor
  · intro pre f post hcb hok hundo hf hs
    have haux := pm_send_all_aux_fail data f post hf hs pre []
      (fun d hd _ => hok d hd)
    refine ⟨haux.1, ?_⟩
    rw [pm_send_all, haux.2]
    simp only [List.reverse_nil, List.nil_append]
    rw [pm_undo_all_fst, List.map_append, List.map_append, List.map_map,
      List.map_map]
    congr 1
    refine List.map_congr_left ?_
    intro d hd
    exact undo_restores data d (hcb d hd) (hok d hd) (hundo d hd)
  · intro devs hcb hok
    have haux := pm_send_all_aux_success PmRequest.suspend data devs []
      (fun d hd _ => hok d hd)
    refine ⟨haux.1, ?_⟩
    intro d hd
    rw [pm_send_all, haux.2] at hd
    simp only [List.reverse_nil, List.nil_append, List.mem_map] at hd
    obtain ⟨d0, hd0, rfl⟩ := hd
    have hcb0 := hcb d0 hd0
    rw [fwd1, if_pos hcb0]
    exact pm_send_targets d0 _ data (Or.inl rfl) (hok d0 hd0)

/-- C1, witness: with an accepting device followed by a vetoing device,
the suspend broadcast returns the veto status and both devices keep
their pre-broadcast state. -/
theorem C1_suspend_veto_rollback_witness :
    (pm_send_all PmRequest.suspend 3 [devAcc 0, devRej 1]).1
      = (pm_send (devRej 1) PmRequest.suspend 3).1 ∧
    ((pm_send_all PmRequest.suspend 3 [devAcc 0, devRej 1]).2.1).map
        PmDev.state
      = ([devAcc 0, devRej 1]).map PmDev.state := by
  refine (C1_suspend_veto_rollback 3).1 [devAcc 0] (devRej 1) []
    ?_ ?_ ?_ rfl (by decide)
  · intro d hd
    rw [List.mem_singleton] at hd
    subst hd
    rfl
  · intro d hd
    rw [List.mem_singleton] at hd
    subst hd
    decide
  · intro d hd cb hcbe hne
    rw [List.mem_singleton] at hd
    subst hd
    have : cb = cbAccept := by
      have := hcbe.symm.trans (rfl : (devAcc 0).callback = some cbAccept)
      exact (Option.some.injEq _ _ ▸ this).symm ▸ rfl
    subst this
    rfl

/-! ## C5: acknowledge arbitration -/

/-- C5.  For a privileged write-capable client: acknowledging a kind
either consumes one read pending count of that kind (decrementing the
per-client read and pending counters and the global counter) when the
client has one, or synthesizes a fresh UserSuspend or UserStandby event
through queue_event with the acknowledging client excluded as sender;
in either case the corresponding transition procedure runs now if and
only if the resulting global counter of that kind is at most zero. -/
theorem C5_acknowledge (bios : Nat → Int) (ver : Nat) (st : ApmState)
    (uid : Nat) (as : ApmUser)
    (hf : st.users.find? (fun u => u.uid = uid) = some as)
    (hsu : as.suser = true) (hwr : as.writer = true) :
    ((as.suspends_read > 0 →
      do_ioctl bios ver st uid APM_IOC_SUSPEND
        = (let st1 : ApmState := { st with
             users := st.users.map (fun u =>
               if u.uid = uid then
                 { u with suspends_read := u.suspends_read - 1,
                          suspends_pending := u.suspends_pending - 1 }
               else u),
             suspends_pending := st.suspends_pending - 1 }
           if st1.suspends_pending ≤ 0 then suspend bios ver true st1
           else (0, st1, []))) ∧
     (¬ as.suspends_read > 0 →
      do_ioctl bios ver st uid APM_IOC_SUSPEND
        = (let st1 := queue_event st APM_USER_SUSPEND (some uid)
           if st1.suspends_pending ≤ 0 then suspend bios ver true st1
           else (0, st1, []))) ∧
     (Act.enterSuspend true ∈ (do_ioctl bios ver st uid APM_IOC_SUSPEND).2.2
        ↔ (do_ioctl bios ver st uid APM_IOC_SUSPEND).2.1.suspends_pending
            ≤ 0)) ∧
    ((as.standbys_read > 0 →
      do_ioctl bios ver st uid APM_IOC_STANDBY
        = (let st1 : ApmState := { st with
             users := st.users.map (fun u =>
               if u.uid = uid then
                 { u with standbys_read := u.standbys_read - 1,
                          standbys_pending := u.standbys_pending - 1 }
               else u),
             standbys_pending := st.standbys_pending - 1 }
           if st1.standbys_pending ≤ 0 then
             (0, (standby bios st1).1, (standby bios st1).2)
           else (0, st1, []))) ∧
     (¬ as.standbys_read > 0 →
      do_ioctl bios ver st uid APM_IOC_STANDBY
        = (let st1 := queue_event st APM_USER_STANDBY (some uid)
           if st1.standbys_pending ≤ 0 then
             (0, (standby bios st1).1, (standby bios st1).2)
           else (0, st1, []))) ∧
     (Act.enterStandby ∈ (do_ioctl bios ver st uid APM_IOC_STANDBY).2.2
        ↔ (do_ioctl bios ver st uid APM_IOC_STANDBY).2.1.standbys_pending
            ≤ 0)) := by
  have hguard : ¬¬(as.suser && as.writer) = true := by
    simp [hsu, hwr]
  have hsusp :
      do_ioctl bios ver st uid APM_IOC_SUSPEND
        = (let st1 : ApmState :=
             if as.suspends_read > 0 then
               { st with
                 users := st.users.map (fun u =>
                   if u.uid = uid then
                     { u with suspends_read := u.suspends_read - 1,
                              suspends_pending := u.suspends_pending - 1 }
                   else u),
                 suspends_pending := st.suspends_pending - 1 }
             else queue_event st APM_USER_SUSPEND (some uid)
           if st1.suspends_pending ≤ 0 then suspend bios ver true st1
           else (0, st1, [])) := by
    rw [do_ioctl, hf]
    dsimp only
    rw [if_neg hguard, if_neg (by decide : ¬(APM_IOC_SUSPEND = APM_IOC_STANDBY)),
      if_pos rfl]
  have hstand :
      do_ioctl bios ver st uid APM_IOC_STANDBY
        = (let st1 : ApmState :=
             if as.standbys_read > 0 then
               { st with
                 users := st.users.map (fun u =>
                   if u.uid = uid then
                     { u with standbys_read := u.standbys_read - 1,
                              standbys_pending := u.standbys_pending - 1 }
                   else u),
                 standbys_pending := st.standbys_pending - 1 }
             else queue_event st APM_USER_STANDBY (some uid)
           if st1.standbys_pending ≤ 0 then
             (0, (standby bios st1).1, (standby bios st1).2)
           else (0, st1, [])) := by
    rw [do_ioctl, hf]
    dsimp only
    rw [if_neg hguard, if_pos rfl]
  refine ⟨⟨?_, ?_, ?_⟩, ⟨?_, ?_, ?_⟩⟩
  · intro hr
    rw [hsusp]
    dsimp only
    rw [if_pos hr]
  · intro hr
    rw [hsusp]
    dsimp only
    rw [if_neg hr]
  · rw [hsusp]
    dsimp only
    set st1 : ApmState :=
      if as.suspends_read > 0 then
        { st with
          users := st.users.map (fun u =>
            if u.uid = uid then
              { u with suspends_read := u.suspends_read - 1,
                       suspends_pending := u.suspends_pending - 1 }
            else u),
          suspends_pending := st.suspends_pending - 1 }
      else queue_event st APM_USER_SUSPEND (some uid) with hst1
    by_cases hz : st1.suspends_pending ≤ 0
    · rw [if_pos hz]
      obtain ⟨tr, htr⟩ := suspend_trace_head bios ver true st1
      have he := (suspend_effects bios ver true st1).1
      constructor
      · intro _
        rw [he]
        exact hz
      · intro _
        rw [htr]
        exact List.mem_cons_self _ _
    · rw [if_neg hz]
      constructor
      · intro hmem
        simp at hmem
      · intro hle
        exact absurd hle hz
  · intro hr
    rw [hstand]
    dsimp only
    rw [if_pos hr]
  · intro hr
    rw [hstand]
    dsimp only
    rw [if_neg hr]
  · rw [hstand]
    dsimp only
    set st1 : ApmState :=
      if as.standbys_read > 0 then
        { st with
          users := st.users.map (fun u =>
            if u.uid = uid then
              { u with standbys_read := u.standbys_read - 1,
                       standbys_pending := u.standbys_pending - 1 }
            else u),
          standbys_pending := st.standbys_pending - 1 }
      else queue_event st APM_USER_STANDBY (some uid) with hst1
    by_cases hz : st1.standbys_pending ≤ 0
    · rw [if_pos hz]
      constructor
      · intro _
        exact hz
      · intro _
        show Act.enterStandby ∈ (standby bios st1).2
        rw [standby]
        exact List.mem_cons_self _ _
    · rw [if_neg hz]
      constructor
      · intro hmem
        simp at hmem
      · intro hle
        exact absurd hle hz

/-- The state used by the C5 witness: one privileged writer-reader
client and no devices. -/
def stC5w : ApmState :=
  { initState with users := [mkUser 0 true true true] }

/-- C5, witness: with zero read counts the acknowledge synthesizes the
user event (delivered to nobody else) and, the global counter being
zero, executes the transition: the entry actions appear in the traces
exactly when the resulting counters are at most zero. -/
theorem C5_acknowledge_witness :
    (Act.enterSuspend true
        ∈ (do_ioctl biosOk 0x101 stC5w 0 APM_IOC_SUSPEND).2.2
      ↔ (do_ioctl biosOk 0x101 stC5w 0 APM_IOC_SUSPEND).2.1.suspends_pending
          ≤ 0) ∧
    (Act.enterStandby
        ∈ (do_ioctl biosOk 0x101 stC5w 0 APM_IOC_STANDBY).2.2
      ↔ (do_ioctl biosOk 0x101 stC5w 0 APM_IOC_STANDBY).2.1.standbys_pending
          ≤ 0) := by
  have h := C5_acknowledge biosOk 0x101 stC5w 0 (mkUser 0 true true true)
    (by rfl) rfl rfl
  exact ⟨h.1.2.2, h.2.2.2⟩

/-! ## C6: critical suspend is not vetoable -/

/-- The device registry used by the C6 counterexample: one device that
vetoes everything. -/
def stC6 : ApmState := { initState with devs := [devRej 0] }

/-- C6, counterexample.  A vetoed VETOABLE suspend with connection
version above 0x100 aborts with -EBUSY, but NOT before a backend call:
the driver notifies the BIOS of the rejection with
apm_set_power_state(APM_STATE_REJECT), so a backend call does occur on
the veto path. -/
theorem C6_critical_suspend_counterexample :
    (suspend biosOk 0x101 true stC6).1 = -EBUSY ∧
    ((suspend biosOk 0x101 true stC6).2.2).filter isSetPowerAct
      = [Act.setPower APM_STATE_REJECT 0] := by
  decide

/-- C6, amended.  A CriticalSuspend event always runs the suspend
procedure — the device broadcast is attempted and the backend suspend is
applied regardless of the global suspend counter and of any device veto
(the rejection is only logged).  For a vetoable suspend a device veto
aborts the transition before the backend SUSPEND application and -EBUSY
is returned; the only backend interaction on that path is the
APM_STATE_REJECT notification, issued exactly when the connection
version exceeds 0x100. -/
theorem C6_critical_suspend (bios : Nat → Int) (ver : Nat) (st : ApmState)
    (now : Nat) :
    (Act.enterSuspend false
        ∈ (check_one bios ver st APM_CRITICAL_SUSPEND now).2 ∧
     Act.setPower APM_STATE_SUSPEND (bios APM_STATE_SUSPEND)
        ∈ (check_one bios ver st APM_CRITICAL_SUSPEND now).2) ∧
    ((pm_send_all PmRequest.suspend 3 st.devs).1 ≠ 0 →
     (suspend bios ver true st).1 = -EBUSY ∧
     ((suspend bios ver true st).2.2).filter isSetPowerAct
       = (if ver > 0x100 then
            [Act.setPower APM_STATE_REJECT (bios APM_STATE_REJECT)]
          else [])) := by
  constructor
  · have hch : (check_one bios ver st APM_CRITICAL_SUSPEND now).2
        = (suspend bios ver false
            { st with
              ignore_bounce :=
                if st.ignore_bounce ∧ now - st.last_resume > bounce_interval
                then false else st.ignore_bounce,
              ignore_normal_resume :=
                if st.ignore_normal_resume
                    ∧ APM_CRITICAL_SUSPEND ≠ APM_NORMAL_RESUME
                then false else st.ignore_normal_resume }).2.2 := by
      rw [check_one, check_one_core]
      rw [if_neg (by decide), if_neg (by decide), if_neg (by decide),
        if_neg (by decide), if_neg (by decide), if_pos rfl]
    rw [hch, suspend, if_neg (by simp)]
    constructor
    · exact List.mem_cons_self _ _
    · refine List.mem_cons_of_mem _ ?_
      simp
  · intro hv
    rw [suspend, if_pos ⟨hv, rfl⟩]
    refine ⟨rfl, ?_⟩
    show (Act.enterSuspend true ::
        ((pm_send_all PmRequest.suspend 3 st.devs).2.2
          ++ (if ver > 0x100 then
                [Act.setPower APM_STATE_REJECT (bios APM_STATE_REJECT)]
              else []))).filter isSetPowerAct = _
    rw [List.filter_cons, if_neg (by simp [isSetPowerAct]),
      List.filter_append]
    have h1 : ((pm_send_all PmRequest.suspend 3 st.devs).2.2).filter
        isSetPowerAct = [] := by
      rw [List.filter_eq_nil_iff]
      intro a ha
      simp [callback_not_setPower a (pm_send_all_trace _ _ _ a ha)]
    rw [h1, List.nil_append]
    by_cases hver : ver > 0x100
    · rw [if_pos hver]
      rfl
    · rw [if_neg hver]
      rfl

/-- C6, witness: on a registry whose only device vetoes everything, the
critical-suspend path still applies the backend suspend, while the
vetoable path returns -EBUSY after only the rejection notification. -/
theorem C6_critical_suspend_witness :
    (Act.enterSuspend false
        ∈ (check_one biosOk 0x101 stC6 APM_CRITICAL_SUSPEND 0).2 ∧
     Act.setPower APM_STATE_SUSPEND (biosOk APM_STATE_SUSPEND)
        ∈ (check_one biosOk 0x101 stC6 APM_CRITICAL_SUSPEND 0).2) ∧
    ((suspend biosOk 0x101 true stC6).1 = -EBUSY ∧
     ((suspend biosOk 0x101 true stC6).2.2).filter isSetPowerAct
       = (if 0x101 > 0x100 then
            [Act.setPower APM_STATE_REJECT (biosOk APM_STATE_REJECT)]
          else [])) := by
  have h := C6_critical_suspend biosOk 0x101 stC6 0
  exact ⟨h.1, h.2 (by decide)⟩

/-! ## C7: debounce after resume -/

/-- C7.  While the bounce flag is set after a resume: a SystemSuspend or
UserSuspend notification arriving within the bounce interval is rejected
immediately — the client queues are untouched and no device callback and
no suspend-procedure entry appears in the trace; one arriving after the
interval has elapsed behaves exactly as if the bounce flag were clear
(the normal broadcast path), and when nothing else defers the suspend
the suspend procedure is in fact entered. -/
theorem C7_debounce (bios : Nat → Int) (ver : Nat) (st : ApmState)
    (event : Nat) (now : Nat)
    (hev : event = APM_SYS_SUSPEND ∨ event = APM_USER_SUSPEND) :
    (st.ignore_bounce = true → now - st.last_resume ≤ bounce_interval →
      (check_one bios ver st event now).1.users = st.users ∧
      (∀ a ∈ (check_one bios ver st event now).2, isCallbackAct a = false) ∧
      (∀ a ∈ (check_one bios ver st event now).2,
        a ≠ Act.enterSuspend true)) ∧
    (now - st.last_resume > bounce_interval →
      check_one bios ver st event now
        = check_one bios ver { st with ignore_bounce := false } event now) ∧
    (now - st.last_resume > bounce_interval →
     st.waiting_for_resume = false →
     (queue_event
         { st with ignore_bounce := false, ignore_normal_resume := false,
                   waiting_for_resume := true }
         event none).suspends_pending ≤ 0 →
      Act.enterSuspend true ∈ (check_one bios ver st event now).2) := by
  have hstandby : ¬(event = APM_SYS_STANDBY ∨ event = APM_USER_STANDBY) := by
    rcases hev with h | h <;> subst h <;> decide
  have hsusp : event = APM_USER_SUSPEND ∨ event = APM_SYS_SUSPEND := hev.symm
  have hnr : event ≠ APM_NORMAL_RESUME := by
    rcases hev with h | h <;> subst h <;> decide
  have hinr2 : (if st.ignore_normal_resume = true ∧ event ≠ APM_NORMAL_RESUME
      then false else st.ignore_normal_resume) = false := by
    by_cases hi : st.ignore_normal_resume = true
    · rw [if_pos ⟨hi, hnr⟩]
    · rw [if_neg (fun hc => hi hc.1)]
      simpa using hi
  refine ⟨?_, ?_, ?_⟩
  · intro hib hnow
    have hc1 : ¬(st.ignore_bounce = true
        ∧ now - st.last_resume > bounce_interval) := by
      rintro ⟨_, hgt⟩
      exact absurd hnow (not_le.mpr hgt)
    have hib2 : (if st.ignore_bounce = true
        ∧ now - st.last_resume > bounce_interval
        then false else st.ignore_bounce) = true := by
      rw [if_neg hc1]
      exact hib
    rw [check_one, check_one_core, hib2, hinr2]
    rw [if_neg hstandby, if_pos hsusp, if_pos (by simp)]
    refine ⟨rfl, ?_, ?_⟩
    · intro a ha
      by_cases hver : ver > 0x100
      · rw [if_pos hver] at ha
        rw [List.mem_singleton] at ha
        subst ha
        rfl
      · rw [if_neg hver] at ha
        simp at ha
    · intro a ha
      by_cases hver : ver > 0x100
      · rw [if_pos hver] at ha
        rw [List.mem_singleton] at ha
        subst ha
        simp
      · rw [if_neg hver] at ha
        simp at ha
  · intro hnow
    have h1 : (if st.ignore_bounce = true
        ∧ now - st.last_resume > bounce_interval
        then false else st.ignore_bounce) = false := by
      by_cases hb : st.ignore_bounce = true
      · rw [if_pos ⟨hb, hnow⟩]
      · rw [if_neg (fun hc => hb hc.1)]
        simpa using hb
    rw [check_one, check_one, h1]
    simp
  · intro hnow hwait hpend
    have h1 : (if st.ignore_bounce = true
        ∧ now - st.last_resume > bounce_interval
        then false else st.ignore_bounce) = false := by
      by_cases hb : st.ignore_bounce = true
      · rw [if_pos ⟨hb, hnow⟩]
      · rw [if_neg (fun hc => hb hc.1)]
        simpa using hb
    rw [check_one, check_one_core, h1, hinr2]
    rw [if_neg hstandby, if_pos hsusp, if_neg (by simp),
      if_neg (by simp [hwait])]
    dsimp only
    rw [if_pos hpend]
    obtain ⟨tr, htr⟩ := suspend_trace_head bios ver true
      (queue_event
        { st with ignore_bounce := false, ignore_normal_resume := false,
                  waiting_for_resume := true }
        event none)
    show Act.enterSuspend true ∈ (suspend bios ver true _).2.2
    rw [htr]
    exact List.mem_cons_self _ _

/-- The post-resume state used by the C7 witness: the bounce flag is set
and the last resume happened at jiffies 100. -/
def stC7w : ApmState :=
  { initState with ignore_bounce := true, last_resume := 100 }

/-- C7, witness: at jiffies 200 (within the 300-tick bounce interval) a
SystemSuspend is rejected without device callbacks; at jiffies 900 the
same notification takes the normal path and (nothing deferring it)
enters the suspend procedure. -/
theorem C7_debounce_witness :
    ((check_one biosOk 0x101 stC7w APM_SYS_SUSPEND 200).1.users
        = stC7w.users ∧
     (∀ a ∈ (check_one biosOk 0x101 stC7w APM_SYS_SUSPEND 200).2,
        isCallbackAct a = false) ∧
     (∀ a ∈ (check_one biosOk 0x101 stC7w APM_SYS_SUSPEND 200).2,
        a ≠ Act.enterSuspend true)) ∧
    (check_one biosOk 0x101 stC7w APM_SYS_SUSPEND 900
      = check_one biosOk 0x101 { stC7w with ignore_bounce := false }
          APM_SYS_SUSPEND 900) ∧
    Act.enterSuspend true
      ∈ (check_one biosOk 0x101 stC7w APM_SYS_SUSPEND 900).2 := by
  have h200 := C7_debounce biosOk 0x101 stC7w APM_SYS_SUSPEND 200
    (Or.inl rfl)
  have h900 := C7_debounce biosOk 0x101 stC7w APM_SYS_SUSPEND 900
    (Or.inl rfl)
  exact ⟨h200.1 rfl (by decide), h900.2.1 (by decide),
    h900.2.2 (by decide) rfl (by decide)⟩

/-! ## C10: resume fan-out after a suspend attempt -/

/-- The registry used by the C10 counterexample: device 0 vetoes resumes
only, device 2 accepts everything. -/
def stC10 : ApmState := { initState with devs := [devNoResume 0, devAcc 2] }

/-- C10, counterexample.  When device 0 vetoes the PM_RESUME broadcast
issued after the backend suspend returned, pm_send_all aborts at device
0: device 2 is never sent the Resume request (its callback does not
appear in the trace with the resume request) and both devices remain in
the suspended state 3, contradicting the claim that every registered
device is sent a Resume request. -/
theorem C10_resume_fanout_counterexample :
    ((suspend biosOk 0x101 true stC10).2.1.devs).map PmDev.state
      = [3, 3] ∧
    Act.callback 0 2 PmRequest.resume 0 0
      ∉ (suspend biosOk 0x101 true stC10).2.2 := by
  decide

/-- C10, amended.  After a suspend attempt that is not aborted by a veto
(a critical suspend, or a vetoable suspend no device vetoed), once the
backend state transition returns — success or failure — the devices are
sent PM_RESUME in iteration order up to the first resume failure; when
every device with a callback accepts the resume, every such device ends
resumed at state 0.  A synthetic NormalResume event is queued to every
connected reader client (appended at the end of its queue), the echo
flag is set, and a NormalResume that is the immediately next
backend-reported event is swallowed: no device broadcast, no client
queueing — the state merely records the resume time, sets the bounce
flag and clears the echo flag. -/
theorem C10_resume_fanout (bios : Nat → Int) (ver : Nat) (v : Bool)
    (st : ApmState) :
    (((pm_send_all PmRequest.suspend 3 st.devs).1 = 0 ∨ v = false) →
     (∀ d ∈ (pm_send_all PmRequest.suspend 3 st.devs).2.1,
        d.callback.isSome → (pm_send d PmRequest.resume 0).1 = 0) →
     (suspend bios ver v st).2.1.ignore_normal_resume = true ∧
     Act.setPower APM_STATE_SUSPEND (bios APM_STATE_SUSPEND)
        ∈ (suspend bios ver v st).2.2 ∧
     (suspend bios ver v st).2.1.users
        = st.users.map (deliver APM_NORMAL_RESUME none) ∧
     (∀ u ∈ st.users, u.reader = true → UserWF u →
        (queue_contents (deliver APM_NORMAL_RESUME none u)).getLast?
          = some APM_NORMAL_RESUME) ∧
     (∀ d ∈ (suspend bios ver v st).2.1.devs,
        d.callback.isSome → d.state = 0)) ∧
    (∀ (st' : ApmState) (now : Nat), st'.ignore_normal_resume = true →
      check_one bios ver st' APM_NORMAL_RESUME now
        = ({ st' with waiting_for_resume := false, last_resume := now,
                      ignore_bounce := true, ignore_normal_resume := false },
           [])) := by
  constructor
  · intro hnab hres
    have hcond : ¬((pm_send_all PmRequest.suspend 3 st.devs).1 ≠ 0
        ∧ v = true) := by
      rcases hnab with h | h
      · exact fun hc => hc.1 h
      · subst h
        rintro ⟨_, hc⟩
        exact Bool.noConfusion hc
    have hsucc := pm_send_all_aux_success PmRequest.resume 0
      (pm_send_all PmRequest.suspend 3 st.devs).2.1 []
      (fun d hd hcb => hres d hd hcb)
    have hdevs : (suspend bios ver v st).2.1.devs
        = (pm_send_all PmRequest.resume 0
            (pm_send_all PmRequest.suspend 3 st.devs).2.1).2.1 := by
      rw [suspend, if_neg hcond]
      dsimp only
      exact (queue_event_eq _ APM_NORMAL_RESUME none).2.2.2.1
    refine ⟨?_, ?_, ?_, ?_, ?_⟩
    · rw [suspend, if_neg hcond]
    · rw [suspend, if_neg hcond]
      dsimp only
      refine List.mem_cons_of_mem _ ?_
      simp
    · rw [suspend, if_neg hcond]
      dsimp only
      exact (queue_event_eq _ APM_NORMAL_RESUME none).1
    · intro u hu hrd hw
      have hex : ¬((none : Option Nat) = some u.uid ∨ u.reader = false) := by
        rintro (h | h)
        · exact Option.noConfusion h
        · rw [hrd] at h
          exact Bool.noConfusion h
      rw [(deliver_contents APM_NORMAL_RESUME none u hex hw).1]
      exact List.getLast?_concat _
    · intro d hd hcb
      rw [hdevs, pm_send_all, hsucc.2] at hd
      simp only [List.reverse_nil, List.nil_append, List.mem_map] at hd
      obtain ⟨d0, hd0, rfl⟩ := hd
      by_cases hcb0 : d0.callback.isSome
      · rw [fwd1, if_pos hcb0]
        exact pm_send_targets d0 _ 0 (Or.inr rfl) (hres d0 hd0 hcb0)
      · rw [fwd1, if_neg hcb0] at hcb
        exact absurd hcb hcb0
  · intro st' now2 hinr
    have hNinr : (if st'.ignore_normal_resume = true
        ∧ APM_NORMAL_RESUME ≠ APM_NORMAL_RESUME
        then false else st'.ignore_normal_resume) = true := by
      rw [if_neg (by simp)]
      exact hinr
    rw [check_one, check_one_core]
    rw [if_neg (by decide), if_neg (by decide), if_pos (Or.inl rfl)]
    dsimp only
    rw [hNinr]
    rw [if_neg (by rintro (h | h)
                   · exact h rfl
                   · exact Bool.noConfusion h)]

/-- The state used by the C10 witness: one reader client and one
all-accepting device. -/
def stC10w : ApmState :=
  { initState with users := [mkUser 0 true true true], devs := [devAcc 0] }

/-- C10, witness: with an accepting device the suspend resumes the
device back to state 0, fans the synthetic NormalResume out to the
reader (at the end of its queue), sets the echo flag, and a NormalResume
processed next against a state with the flag set is swallowed. -/
theorem C10_resume_fanout_witness :
    ((suspend biosOk 0x101 true stC10w).2.1.ignore_normal_resume = true ∧
     Act.setPower APM_STATE_SUSPEND (biosOk APM_STATE_SUSPEND)
        ∈ (suspend biosOk 0x101 true stC10w).2.2 ∧
     (suspend biosOk 0x101 true stC10w).2.1.users
        = stC10w.users.map (deliver APM_NORMAL_RESUME none) ∧
     (queue_contents (deliver APM_NORMAL_RESUME none
          (mkUser 0 true true true))).getLast? = some APM_NORMAL_RESUME ∧
     (∀ d ∈ (suspend biosOk 0x101 true stC10w).2.1.devs,
        d.callback.isSome → d.state = 0)) ∧
    check_one biosOk 0x101
        { initState with ignore_normal_resume := true }
        APM_NORMAL_RESUME 42
      = ({ initState with waiting_for_resume := false, last_resume := 42,
                          ignore_bounce := true,
                          ignore_normal_resume := false }, []) := by
  have h := C10_resume_fanout biosOk 0x101 true stC10w
  have h1 := h.1 (Or.inl (by decide))
    (by
      intro d hd hcb
      have : d = { handle := 0, ty := 0, devid := 0,
                   callback := some cbAccept, state := 3,
                   prev_state := 0 } := by
        simpa [stC10w, pm_send_all, pm_send_all_aux, devAcc, pm_send,
          invokeCb, cbAccept] using hd
      subst this
      decide)
  refine ⟨⟨h1.1, h1.2.1, h1.2.2.1, ?_, h1.2.2.2.2⟩, ?_⟩
  · exact h1.2.2.2.1 (mkUser 0 true true true) (by simp [stC10w])
      rfl (by simp only [UserWF]; decide)
  · exact h.2 { initState with ignore_normal_resume := true } 42 rfl

end PmCore
